import Mathlib

/-
  Verification of the ImageSplitterQt core — the guide-line data model, the
  undo/redo command stack, coordinate snapping/deduplication, and the segment
  exporter — against a shallow embedding of
  `src/core/models.py`, `src/core/utils.py`, `src/core/commands.py`,
  `src/core/controller.py` and `src/core/exporter.py`.

  Modelling conventions:
  * Python floats are modelled as exact rationals (ℚ); Python `round` is
    round-half-to-even (its documented behaviour), embedded as `pyRound`.
  * `uuid.uuid4()` is modelled by a fresh-id counter (`nextId`): every
    generated id is distinct from all ids generated before, which is the
    property the code relies on.
  * The filesystem is modelled by oracles: `mkdirErr` is the outcome of
    `utils.ensure_directory` (`none` on success, the error string on failure)
    and `saveOk` gives the success of `QImage.save` per output path.
  * Qt signals carry no state; only `status_message` emissions are recorded,
    as the i18n keys the controller passes to `tr`.
-/

/-- `models.SnapMode`. -/
inductive SnapMode where
  | OFF
  | PIXEL
  | GRID
deriving DecidableEq, Repr

/-- `models.ExportFormat`. -/
inductive ExportFormat where
  | PNG
  | JPEG
  | KEEP
deriving DecidableEq, Repr

/-- `models.GuideLine`; the uuid string id is modelled as a `Nat`. -/
structure GuideLine where
  id : Nat
  y : ℚ
  locked : Bool := false
  kind : String := "horizontal"
deriving DecidableEq, Repr

/-- `models.ExportResult` (the three lists; `success`/`summary` are derived). -/
structure ExportResult where
  written : List String
  skipped : List String
  errors : List String
deriving DecidableEq, Repr

/-- `utils.clamp`: `max(minimum, min(value, maximum))`. -/
def clamp (value minimum maximum : ℚ) : ℚ := max minimum (min value maximum)

/-- Python's built-in `round` on our exact-rational model of float:
round half to even (banker's rounding), per the Python documentation. -/
def pyRound (q : ℚ) : ℤ :=
  let f := ⌊q⌋
  let r := q - (f : ℚ)
  if r < 1/2 then f
  else if 1/2 < r then f + 1
  else if f % 2 = 0 then f else f + 1

/-- `utils.apply_snap`. -/
def apply_snap (y : ℚ) (snap_mode : SnapMode) (grid_size : ℤ) : ℚ :=
  if snap_mode = SnapMode.OFF then y
  else if snap_mode = SnapMode.PIXEL then (pyRound y : ℚ)
  else if snap_mode = SnapMode.GRID ∧ grid_size > 0 then
    (pyRound (y / (grid_size : ℚ)) : ℚ) * (grid_size : ℚ)
  else y

/-- The sort key of `sorted(lines, key=lambda l: l.y)`. -/
def byY (a b : GuideLine) : Prop := a.y ≤ b.y

instance : DecidableRel byY := fun a b => inferInstanceAs (Decidable (a.y ≤ b.y))

instance : IsTotal GuideLine byY := ⟨fun a b => le_total a.y b.y⟩

instance : IsTrans GuideLine byY := ⟨fun _ _ _ h h2 => le_trans h h2⟩

/-- Python's stable sort by `y` (`sorted(lines, key=lambda l: l.y)`). -/
def sortedByY (lines : List GuideLine) : List GuideLine := List.insertionSort byY lines

/-- exporter.py line 33: `[0] + [int(round(line.y)) for line in sorted(lines, ...)] + [height]`. -/
def boundariesOf (height : ℤ) (lines : List GuideLine) : List ℤ :=
  [0] ++ (sortedByY lines).map (fun l => pyRound l.y) ++ [height]

/-- exporter.py lines 35-40, the dedupe-and-clamp loop. The `Option ℤ`
argument is `clean_boundaries[-1]` — the last element appended so far
(`none` while the accumulator list is still empty). -/
def cleanLoop (height : ℤ) : Option ℤ → List ℤ → List ℤ
  | _, [] => []
  | last, b :: rest =>
    let c := max 0 (min height b)
    match last with
    | some p => if c = p then cleanLoop height (some p) rest
                else c :: cleanLoop height (some c) rest
    | none => c :: cleanLoop height (some c) rest

/-- exporter.py `clean_boundaries` after the loop. -/
def clean_boundaries (height : ℤ) (lines : List GuideLine) : List ℤ :=
  cleanLoop height none (boundariesOf height lines)

/-- exporter.py line 42: `[(b[i], b[i+1]) for i in range(len(b) - 1)]`. -/
def consecPairs : List ℤ → List (ℤ × ℤ)
  | a :: b :: rest => (a, b) :: consecPairs (b :: rest)
  | _ => []

/-- exporter.py `segment_candidates`. -/
def segment_candidates (height : ℤ) (lines : List GuideLine) : List (ℤ × ℤ) :=
  consecPairs (clean_boundaries height lines)

/-- exporter.py line 43: candidates with `end - start > 0`. -/
def valid_segments (height : ℤ) (lines : List GuideLine) : List (ℤ × ℤ) :=
  (segment_candidates height lines).filter (fun p => p.2 - p.1 > 0)

/-- Python `str.lower`: lowercase every character (ASCII suffices for the
extensions involved). -/
def strLower (s : String) : String := String.mk (s.data.map Char.toLower)

/-- Python `str.upper`: uppercase every character. -/
def strUpper (s : String) : String := String.mk (s.data.map Char.toUpper)

/-- Python `str.lstrip(".")`: drop every leading dot. -/
def lstripDots (s : String) : String := String.mk (s.data.dropWhile (fun c => c = '.'))

/-- exporter.py `_resolve_extension`. -/
def resolve_extension (export_format : ExportFormat) (original_suffix : String) : String :=
  if export_format = ExportFormat.KEEP then
    -- suffix = original_suffix.lower().lstrip(".") or "png"
    let suffix := lstripDots (strLower original_suffix)
    if suffix = "" then "png" else suffix
  else if export_format = ExportFormat.PNG then "png"
  else if export_format = ExportFormat.JPEG then "jpg"
  else "png"

/-- exporter.py `_resolve_qt_format`. -/
def resolve_qt_format (export_format : ExportFormat) (original_suffix : String) : String :=
  if export_format = ExportFormat.KEEP then
    let suffix := lstripDots (strLower original_suffix)
    if suffix = "jpg" ∨ suffix = "jpeg" then "JPEG"
    else if suffix = "png" then "PNG"
    -- return suffix.upper() if suffix else "PNG"
    else if suffix = "" then "PNG"
    else strUpper suffix
  else if export_format = ExportFormat.PNG then "PNG"
  else if export_format = ExportFormat.JPEG then "JPEG"
  else "PNG"

/-- Python `f"{index:0{pad_width}d}"`: zero-pad, never truncating. -/
def zeroPad (width index : Nat) : String :=
  let s := toString index
  String.mk (List.replicate (width - s.length) '0') ++ s

/-- exporter.py line 44: `max(3, len(str(len(valid_segments) or 1)))`. -/
def pad_width_of (n : Nat) : Nat := max 3 (toString (if n = 0 then 1 else n)).length

/-- The message `tr("error.save_failed", path=str(output_path))` appended on a
failed save, modelled as its i18n key plus the path parameter. -/
def saveFailedMsg (path : String) : String := "error.save_failed:" ++ path

/-- exporter.py lines 49-60: the save loop over the valid segments, with
`index` starting at 1. Returns `(written, errors)`; `saveOk` is the oracle
for the success of `cropped.save(...)` (the crop rectangle, encoder and
quality do not influence the lists beyond save success/failure). -/
def saveLoop (saveOk : String → Bool) (output_dir ext : String) (pad_width : Nat) :
    Nat → List (ℤ × ℤ) → List String × List String
  | _, [] => ([], [])
  | index, _ :: rest =>
    let output_path := output_dir ++ "/" ++ zeroPad pad_width index ++ "." ++ ext
    let r := saveLoop saveOk output_dir ext pad_width (index + 1) rest
    if saveOk output_path then (output_path :: r.1, r.2)
    else (r.1, saveFailedMsg output_path :: r.2)

/-- exporter.py `export_image_segments`. The image contributes only its
height (the pixels and width only affect the crop, not the result lists);
`mkdirErr` models `ensure_directory(output_dir)` and `saveOk` models
`QImage.save`. -/
def export_image_segments (height : Nat) (lines : List GuideLine)
    (output_dir : String) (export_format : ExportFormat) (jpeg_quality : ℤ)
    (original_suffix : String) (mkdirErr : Option String) (saveOk : String → Bool) :
    ExportResult :=
  match mkdirErr with
  | some err => ⟨[], [], [err]⟩   -- errors.append(err); return ExportResult(...)
  | none =>
    let valid := valid_segments (height : ℤ) lines
    let pad_width := pad_width_of valid.length
    let ext := resolve_extension export_format original_suffix
    let wr := saveLoop saveOk output_dir ext pad_width 1 valid
    -- skipped = [f"{s}-{e}" for s, e in segment_candidates if e - s <= 0]
    let skipped := ((segment_candidates (height : ℤ) lines).filter
        (fun p => p.2 - p.1 ≤ 0)).map (fun p => toString p.1 ++ "-" ++ toString p.2)
    ⟨wr.1, skipped, wr.2⟩

theorem pyRound_eq (q : ℚ) (f : ℤ) (hf : ⌊q⌋ = f) (h : q - (f : ℚ) < 1/2) : pyRound q = f := by
  simp only [pyRound, hf]
  rw [if_pos h]

theorem pyRound_30 : pyRound 30 = 30 := pyRound_eq _ 30 (by norm_num) (by norm_num)

theorem pyRound_30_05 : pyRound (601/20) = 30 := pyRound_eq _ 30 (by norm_num) (by norm_num)

theorem pyRound_ge_floor (q : ℚ) : ⌊q⌋ ≤ pyRound q := by
  simp only [pyRound]
  split_ifs <;> omega

theorem pyRound_le_floor_add_one (q : ℚ) : pyRound q ≤ ⌊q⌋ + 1 := by
  simp only [pyRound]
  split_ifs <;> omega

theorem pyRound_mono {p q : ℚ} (h : p ≤ q) : pyRound p ≤ pyRound q := by
  rcases lt_or_le ⌊p⌋ ⌊q⌋ with hf | hf
  · have h1 := pyRound_le_floor_add_one p
    have h2 := pyRound_ge_floor q
    omega
  · have hfe : ⌊p⌋ = ⌊q⌋ := le_antisymm (Int.floor_le_floor h) hf
    have hr : p - (⌊q⌋ : ℚ) ≤ q - (⌊q⌋ : ℚ) := by linarith
    simp only [pyRound, hfe]
    split_ifs <;> first | omega | linarith

theorem sortedByY_sorted (lines : List GuideLine) : List.Sorted byY (sortedByY lines) :=
  List.sorted_insertionSort byY lines

theorem sortedByY_perm (lines : List GuideLine) : (sortedByY lines).Perm lines :=
  List.perm_insertionSort byY lines

theorem clampB_mono (h : ℤ) {b c : ℤ} (hbc : b ≤ c) :
    max 0 (min h b) ≤ max 0 (min h c) :=
  max_le_max le_rfl (min_le_min le_rfl hbc)

theorem boundaries_clamped_pairwise (height : Nat) (lines : List GuideLine) :
    ((boundariesOf (height : ℤ) lines).map
        (fun b => max 0 (min (height : ℤ) b))).Pairwise (· ≤ ·) := by
  have hh : (0 : ℤ) ≤ (height : ℤ) := Int.ofNat_nonneg height
  have hnn : ∀ b : ℤ, (0 : ℤ) ≤ max 0 (min (height : ℤ) b) := fun b => le_max_left _ _
  have hub : ∀ b : ℤ, max 0 (min (height : ℤ) b) ≤ (height : ℤ) :=
    fun b => max_le hh (min_le_left _ _)
  have hmid : ((sortedByY lines).map (fun l => pyRound l.y)).Pairwise (· ≤ ·) :=
    List.Pairwise.map _ (fun a b hab => pyRound_mono hab) (sortedByY_sorted lines)
  have hmid2 : (((sortedByY lines).map (fun l => pyRound l.y)).map
      (fun b => max 0 (min (height : ℤ) b))).Pairwise (· ≤ ·) :=
    List.Pairwise.map _ (fun a b hab => clampB_mono _ hab) hmid
  have hc0 : max 0 (min (height : ℤ) 0) = 0 := by rw [min_eq_right hh, max_self]
  have hch : max 0 (min (height : ℤ) (height : ℤ)) = (height : ℤ) := by
    rw [min_self]
    exact max_eq_right hh
  simp only [boundariesOf, List.singleton_append, List.map_cons, List.map_append, List.map_nil]
  rw [List.pairwise_append]
  refine ⟨?_, List.pairwise_singleton _ _, ?_⟩
  · rw [List.pairwise_cons]
    constructor
    · intro b hb
      rw [hc0]
      rcases List.mem_map.mp hb with ⟨v, _, rfl⟩
      exact hnn v
    · exact hmid2
  · intro a ha b hb
    simp only [List.mem_cons, List.not_mem_nil, or_false] at hb
    subst hb
    rw [hch]
    rcases List.mem_cons.mp ha with rfl | ha
    · rw [hc0]
      exact hh
    · rcases List.mem_map.mp ha with ⟨v, _, rfl⟩
      exact hub v

theorem cleanLoop_strict (height : ℤ) (bs : List ℤ) : ∀ (last : Option ℤ),
    (bs.map (fun b => max 0 (min height b))).Pairwise (· ≤ ·) →
    (∀ p, last = some p → ∀ b ∈ bs, p ≤ max 0 (min height b)) →
    (cleanLoop height last bs).Chain' (· < ·) ∧
      ∀ p, last = some p → ∀ c ∈ cleanLoop height last bs, p < c := by
  induction bs with
  | nil =>
    intro last _ _
    refine ⟨by simp [cleanLoop], ?_⟩
    intro p _ c hc
    simp [cleanLoop] at hc
  | cons b rest ih =>
    intro last hpw hlast
    rw [List.map_cons, List.pairwise_cons] at hpw
    obtain ⟨hb, hpw⟩ := hpw
    have hnext : ∀ p, some (max 0 (min height b)) = some p →
        ∀ v ∈ rest, p ≤ max 0 (min height v) := by
      intro p hp v hv
      injection hp with hp
      subst hp
      exact hb _ (List.mem_map.mpr ⟨v, hv, rfl⟩)
    have hrec := ih (some (max 0 (min height b))) hpw hnext
    match last with
    | none =>
      simp only [cleanLoop]
      constructor
      · rw [List.chain'_cons']
        refine ⟨?_, hrec.1⟩
        intro h hh
        exact hrec.2 _ rfl _ (List.mem_of_mem_head? hh)
      · intro p hp
        simp at hp
    | some p0 =>
      have hp0b : p0 ≤ max 0 (min height b) := hlast p0 rfl b (by simp)
      simp only [cleanLoop]
      by_cases hc : max 0 (min height b) = p0
      · rw [if_pos hc]
        have hlast2 : ∀ p, (some p0 : Option ℤ) = some p →
            ∀ v ∈ rest, p ≤ max 0 (min height v) := by
          intro p hp v hv
          injection hp with hp
          subst hp
          rw [← hc]
          exact hb _ (List.mem_map.mpr ⟨v, hv, rfl⟩)
        exact ih (some p0) hpw hlast2
      · rw [if_neg hc]
        have hlt : p0 < max 0 (min height b) := lt_of_le_of_ne hp0b (Ne.symm hc)
        constructor
        · rw [List.chain'_cons']
          refine ⟨?_, hrec.1⟩
          intro h hh
          exact hrec.2 _ rfl _ (List.mem_of_mem_head? hh)
        · intro p hp c hcmem
          injection hp with hp
          subst hp
          rcases List.mem_cons.mp hcmem with rfl | hcmem
          · exact hlt
          · exact lt_trans hlt (hrec.2 _ rfl _ hcmem)

theorem cleanLoop_bounds (height : ℤ) (hh : 0 ≤ height) (bs : List ℤ) :
    ∀ last, ∀ c ∈ cleanLoop height last bs, 0 ≤ c ∧ c ≤ height := by
  induction bs with
  | nil => intro last c hc; simp [cleanLoop] at hc
  | cons b rest ih =>
    intro last c hc
    have hbound : 0 ≤ max 0 (min height b) ∧ max 0 (min height b) ≤ height :=
      ⟨le_max_left _ _, max_le hh (min_le_left _ _)⟩
    match last with
    | none =>
      simp only [cleanLoop] at hc
      rcases List.mem_cons.mp hc with rfl | hc
      · exact hbound
      · exact ih _ _ hc
    | some p =>
      simp only [cleanLoop] at hc
      by_cases heq : max 0 (min height b) = p
      · rw [if_pos heq] at hc
        exact ih _ _ hc
      · rw [if_neg heq] at hc
        rcases List.mem_cons.mp hc with rfl | hc
        · exact hbound
        · exact ih _ _ hc

theorem clean_boundaries_chain (height : Nat) (lines : List GuideLine) :
    (clean_boundaries (height : ℤ) lines).Chain' (· < ·) :=
  (cleanLoop_strict (height : ℤ) (boundariesOf (height : ℤ) lines) none
    (boundaries_clamped_pairwise height lines) (by intro p hp; cases hp)).1

theorem consecPairs_of_chain : ∀ {l : List ℤ}, l.Chain' (· < ·) →
    ∀ p ∈ consecPairs l, p.1 < p.2 := by
  intro l
  induction l with
  | nil => intro _ p hp; simp [consecPairs] at hp
  | cons a rest ih =>
    intro hchain p hp
    match rest with
    | [] => simp [consecPairs] at hp
    | b :: rest2 =>
      rw [List.chain'_cons] at hchain
      simp only [consecPairs, List.mem_cons] at hp
      rcases hp with rfl | hp
      · exact hchain.1
      · exact ih hchain.2 p hp

theorem segment_candidates_pos (height : Nat) (lines : List GuideLine) :
    ∀ p ∈ segment_candidates (height : ℤ) lines, p.1 < p.2 :=
  consecPairs_of_chain (clean_boundaries_chain height lines)

theorem saveLoop_lengths (saveOk : String → Bool) (output_dir ext : String) (pad_width : Nat) :
    ∀ (segs : List (ℤ × ℤ)) (index : Nat),
      (saveLoop saveOk output_dir ext pad_width index segs).1.length +
        (saveLoop saveOk output_dir ext pad_width index segs).2.length = segs.length := by
  intro segs
  induction segs with
  | nil => intro index; simp [saveLoop]
  | cons s rest ih =>
    intro index
    simp only [saveLoop]
    by_cases h : saveOk (output_dir ++ "/" ++ zeroPad pad_width index ++ "." ++ ext) = true
    · rw [if_pos h]
      have := ih (index + 1)
      simp only [List.length_cons]
      omega
    · rw [if_neg h]
      have := ih (index + 1)
      simp only [List.length_cons]
      omega

theorem saveLoop_all_ok (saveOk : String → Bool) (hok : ∀ p, saveOk p = true)
    (output_dir ext : String) (pad_width : Nat) :
    ∀ (segs : List (ℤ × ℤ)) (index : Nat),
      saveLoop saveOk output_dir ext pad_width index segs =
        ((List.range segs.length).map
          (fun k => output_dir ++ "/" ++ zeroPad pad_width (index + k) ++ "." ++ ext), []) := by
  intro segs
  induction segs with
  | nil => intro index; simp [saveLoop]
  | cons s rest ih =>
    intro index
    simp only [saveLoop, hok, if_pos]
    rw [ih (index + 1)]
    rw [List.length_cons, List.range_succ_eq_map, List.map_cons, List.map_map, Nat.add_zero]
    rw [Prod.mk.injEq]
    refine ⟨?_, rfl⟩
    refine congrArg (List.cons _) ?_
    apply List.map_congr_left
    intro k _
    simp only [Function.comp_apply, Nat.succ_eq_add_one]
    have h2 : index + 1 + k = index + (k + 1) := by omega
    rw [h2]

/-- C1 (counterexample): exporting a height-100 image with a single guide line
at y = 0 records no skipped segment at all — the rounded boundary 0 collapses
with the edge boundary during deduplication — and the single full-height
segment [0,100) is written as 001.png, contrary to the claim that a skipped
zero-height segment described by its start-end range is recorded at that edge. -/
theorem C1_counterexample :
    (export_image_segments 100 [⟨7, 0, false, "horizontal"⟩] "out" ExportFormat.PNG 90 ".png"
        none (fun _ => true)).skipped = [] ∧
    (export_image_segments 100 [⟨7, 0, false, "horizontal"⟩] "out" ExportFormat.PNG 90 ".png"
        none (fun _ => true)).written = ["out/001.png"] := by
  constructor <;>
  · norm_num [export_image_segments, valid_segments, segment_candidates, clean_boundaries,
      boundariesOf, sortedByY, cleanLoop, consecPairs, pyRound, pad_width_of, saveLoop,
      zeroPad, resolve_extension, strLower, lstripDots, List.insertionSort]
    try decide

/-- C1 (amended): after clamping into [0, height] and deduplicating, the
boundary list is strictly increasing, so every consecutive boundary pair has
end − start > 0; hence no consecutive pair with end − start ≤ 0 exists
(vacuously, all ≤ 0 pairs appear in the skipped list) and the skipped list of
every export call whose output directory was created successfully is empty —
in particular a guide line whose y rounds to 0 or to the image height
produces no skipped entry and no file of its own. -/
theorem C1_skipped_always_empty (height : Nat) (lines : List GuideLine)
    (output_dir : String) (export_format : ExportFormat) (jpeg_quality : ℤ)
    (original_suffix : String) (saveOk : String → Bool) :
    (export_image_segments height lines output_dir export_format jpeg_quality
        original_suffix none saveOk).skipped = [] ∧
      ∀ p ∈ segment_candidates (height : ℤ) lines, p.2 - p.1 > 0 := by
  have hpos := segment_candidates_pos height lines
  constructor
  · simp only [export_image_segments]
    have hnil : ((segment_candidates (height : ℤ) lines).filter
        (fun p => p.2 - p.1 ≤ 0)) = [] := by
      rw [List.filter_eq_nil_iff]
      intro p hp
      have := hpos p hp
      simp only [decide_eq_true_eq]
      omega
    rw [hnil]
    rfl
  · intro p hp
    have := hpos p hp
    omega

/-- C5: the exporter builds boundaries from 0, the sorted lines' rounded ys
and the height, clamps them into [0, height] and collapses consecutive equal
boundaries — the clean boundary list is strictly increasing and in range —
and numbers the valid segments from 1 in ascending order, zero-padded to
max(3, digitCount) digits; height 100 with lines at y = 30 and y = 70 yields
exactly the segments [0,30), [30,70), [70,100) named 001/002/003, and lines
at y = 30 and y = 30.05 collapse to a single boundary at 30, yielding 2
segments. -/
theorem C5_segmentation_and_numbering :
    (∀ (height : Nat) (lines : List GuideLine),
        (clean_boundaries (height : ℤ) lines).Chain' (· < ·) ∧
          ∀ b ∈ clean_boundaries (height : ℤ) lines, 0 ≤ b ∧ b ≤ (height : ℤ)) ∧
    (∀ (height : Nat) (lines : List GuideLine) (output_dir : String)
        (export_format : ExportFormat) (jpeg_quality : ℤ) (original_suffix : String)
        (saveOk : String → Bool), (∀ p, saveOk p = true) →
        (export_image_segments height lines output_dir export_format jpeg_quality
            original_suffix none saveOk).written =
          (List.range (valid_segments (height : ℤ) lines).length).map (fun k =>
            output_dir ++ "/" ++
              zeroPad (pad_width_of (valid_segments (height : ℤ) lines).length) (1 + k) ++
              "." ++ resolve_extension export_format original_suffix)) ∧
    valid_segments 100 [⟨1, 30, false, "horizontal"⟩, ⟨2, 70, false, "horizontal"⟩] =
      [(0, 30), (30, 70), (70, 100)] ∧
    (export_image_segments 100 [⟨1, 30, false, "horizontal"⟩, ⟨2, 70, false, "horizontal"⟩]
        "out" ExportFormat.PNG 90 ".png" none (fun _ => true)).written =
      ["out/001.png", "out/002.png", "out/003.png"] ∧
    clean_boundaries 100 [⟨1, 30, false, "horizontal"⟩, ⟨2, 601/20, false, "horizontal"⟩] =
      [0, 30, 100] ∧
    (valid_segments 100
        [⟨1, 30, false, "horizontal"⟩, ⟨2, 601/20, false, "horizontal"⟩]).length = 2 := by
  refine ⟨?_, ?_, ?_, ?_, ?_, ?_⟩
  · intro height lines
    exact ⟨clean_boundaries_chain height lines,
      fun b hb => cleanLoop_bounds _ (Int.ofNat_nonneg height) _ _ b hb⟩
  · intro height lines output_dir export_format jpeg_quality original_suffix saveOk hok
    simp only [export_image_segments]
    rw [saveLoop_all_ok saveOk hok]
  · norm_num [valid_segments, segment_candidates, clean_boundaries, boundariesOf,
      sortedByY, cleanLoop, consecPairs, pyRound, byY, List.insertionSort, List.orderedInsert]
  · norm_num [export_image_segments, valid_segments, segment_candidates, clean_boundaries,
      boundariesOf, sortedByY, cleanLoop, consecPairs, pyRound, pad_width_of, saveLoop,
      zeroPad, resolve_extension, strLower, lstripDots, byY, List.insertionSort,
      List.orderedInsert]
    try decide
  · norm_num [clean_boundaries, boundariesOf, sortedByY, cleanLoop, pyRound_30,
      pyRound_30_05, byY, List.insertionSort, List.orderedInsert]
  · norm_num [valid_segments, segment_candidates, clean_boundaries, boundariesOf,
      sortedByY, cleanLoop, consecPairs, pyRound_30, pyRound_30_05, byY,
      List.insertionSort, List.orderedInsert]

/-- C6: apply_snap is the identity in OFF mode; PIXEL mode yields an integer;
GRID mode with positive grid size yields round(y/g)·g — an exact integer
multiple of g — and leaves y unchanged otherwise; clamp always lands in
[lo, hi] when lo ≤ hi. -/
theorem C6_snapping_and_clamp :
    (∀ (y : ℚ) (g : ℤ), apply_snap y SnapMode.OFF g = y) ∧
    (∀ (y : ℚ) (g : ℤ), ∃ n : ℤ, apply_snap y SnapMode.PIXEL g = (n : ℚ)) ∧
    (∀ (y : ℚ) (g : ℤ), g > 0 →
        apply_snap y SnapMode.GRID g = (pyRound (y / (g : ℚ)) : ℚ) * (g : ℚ) ∧
          ∃ n : ℤ, apply_snap y SnapMode.GRID g = (n : ℚ) * (g : ℚ)) ∧
    (∀ (y : ℚ) (g : ℤ), ¬ g > 0 → apply_snap y SnapMode.GRID g = y) ∧
    (∀ (v lo hi : ℚ), lo ≤ hi → lo ≤ clamp v lo hi ∧ clamp v lo hi ≤ hi) := by
  refine ⟨?_, ?_, ?_, ?_, ?_⟩
  · intro y g
    simp [apply_snap]
  · intro y g
    exact ⟨pyRound y, by simp [apply_snap]⟩
  · intro y g hg
    have h : apply_snap y SnapMode.GRID g = (pyRound (y / (g : ℚ)) : ℚ) * (g : ℚ) := by
      simp [apply_snap, hg]
    exact ⟨h, pyRound (y / (g : ℚ)), h⟩
  · intro y g hg
    simp [apply_snap, hg]
  · intro v lo hi h
    exact ⟨le_max_left _ _, max_le h (min_le_right _ _)⟩

/-- Witness for C6 at y = 3/2, g = 2, and clamp 5 0 4. -/
theorem C6_witness :
    apply_snap (3/2) SnapMode.OFF 2 = 3/2 ∧
    (∃ n : ℤ, apply_snap (3/2) SnapMode.PIXEL 2 = (n : ℚ)) ∧
    ((2 : ℤ) > 0 ∧ ∃ n : ℤ, apply_snap (3/2) SnapMode.GRID 2 = (n : ℚ) * 2) ∧
    ((0 : ℚ) ≤ clamp 5 0 4 ∧ clamp 5 0 4 ≤ 4) := by
  refine ⟨C6_snapping_and_clamp.1 (3/2) 2, C6_snapping_and_clamp.2.1 (3/2) 2,
    ⟨by norm_num, ?_⟩, C6_snapping_and_clamp.2.2.2.2 5 0 4 (by norm_num)⟩
  have h := C6_snapping_and_clamp.2.2.1 (3/2) 2 (by norm_num)
  exact h.2

/-- C7: the exporter is a total function into the three-list ExportResult
(never raises); a directory-creation failure returns immediately with exactly
one error and empty written and skipped lists; a per-segment save failure
contributes exactly one error string while the loop continues — the written
and error counts always partition the valid segments, and with no failure the
error list is empty. -/
theorem C7_error_handling :
    (∀ (height : Nat) (lines : List GuideLine) (output_dir : String)
        (export_format : ExportFormat) (jpeg_quality : ℤ) (original_suffix : String)
        (err : String) (saveOk : String → Bool),
        export_image_segments height lines output_dir export_format jpeg_quality
          original_suffix (some err) saveOk = ⟨[], [], [err]⟩) ∧
    (∀ (height : Nat) (lines : List GuideLine) (output_dir : String)
        (export_format : ExportFormat) (jpeg_quality : ℤ) (original_suffix : String)
        (saveOk : String → Bool),
        (export_image_segments height lines output_dir export_format jpeg_quality
            original_suffix none saveOk).written.length +
          (export_image_segments height lines output_dir export_format jpeg_quality
            original_suffix none saveOk).errors.length =
          (valid_segments (height : ℤ) lines).length) ∧
    (∀ (height : Nat) (lines : List GuideLine) (output_dir : String)
        (export_format : ExportFormat) (jpeg_quality : ℤ) (original_suffix : String)
        (saveOk : String → Bool), (∀ p, saveOk p = true) →
        (export_image_segments height lines output_dir export_format jpeg_quality
            original_suffix none saveOk).errors = []) := by
  refine ⟨?_, ?_, ?_⟩
  · intro height lines output_dir export_format jpeg_quality original_suffix err saveOk
    rfl
  · intro height lines output_dir export_format jpeg_quality original_suffix saveOk
    simp only [export_image_segments]
    exact saveLoop_lengths saveOk output_dir _ _ _ 1
  · intro height lines output_dir export_format jpeg_quality original_suffix saveOk hok
    simp only [export_image_segments]
    rw [saveLoop_all_ok saveOk hok]

/-- Witness for C7: a failing mkdir on a concrete input, and an all-good save
oracle yielding no errors. -/
theorem C7_witness :
    export_image_segments 100 [⟨7, 30, false, "horizontal"⟩] "out" ExportFormat.PNG 90 ".png"
        (some "boom") (fun _ => true) = ⟨[], [], ["boom"]⟩ ∧
    (export_image_segments 100 [⟨7, 30, false, "horizontal"⟩] "out" ExportFormat.PNG 90 ".png"
        none (fun _ => true)).errors = [] :=
  ⟨C7_error_handling.1 100 [⟨7, 30, false, "horizontal"⟩] "out" ExportFormat.PNG 90 ".png"
      "boom" (fun _ => true),
    C7_error_handling.2.2 100 [⟨7, 30, false, "horizontal"⟩] "out" ExportFormat.PNG 90 ".png"
      (fun _ => true) (fun _ => rfl)⟩

/-- C8 (counterexample): for KEEP with the unrecognized extension ".xyz" the
resolved encoder hint is "XYZ" (the uppercased extension), not the claimed
fallback to PNG semantics. -/
theorem C8_counterexample :
    resolve_qt_format ExportFormat.KEEP ".xyz" = "XYZ" ∧
      resolve_qt_format ExportFormat.KEEP ".xyz" ≠ "PNG" := by
  have h : resolve_qt_format ExportFormat.KEEP ".xyz" = "XYZ" := by rfl
  refine ⟨h, ?_⟩
  rw [h]
  decide

/-- C8 (amended): KEEP reuses the original extension lowercased with all
leading dots removed, defaulting to png when absent; the encoder is jpg/jpeg
→ JPEG, png → PNG, absent → PNG, and any other non-empty extension → that
extension uppercased (the PNG fallback applies only to an absent extension,
not to unrecognized ones); PNG and JPEG always use their fixed extension and
encoder. -/
theorem C8_extension_resolution (original_suffix : String) :
    (lstripDots (strLower original_suffix) = "" →
        resolve_extension ExportFormat.KEEP original_suffix = "png" ∧
        resolve_qt_format ExportFormat.KEEP original_suffix = "PNG") ∧
    (lstripDots (strLower original_suffix) ≠ "" →
        resolve_extension ExportFormat.KEEP original_suffix =
          lstripDots (strLower original_suffix)) ∧
    (lstripDots (strLower original_suffix) = "jpg" ∨
        lstripDots (strLower original_suffix) = "jpeg" →
        resolve_qt_format ExportFormat.KEEP original_suffix = "JPEG") ∧
    (lstripDots (strLower original_suffix) = "png" →
        resolve_qt_format ExportFormat.KEEP original_suffix = "PNG") ∧
    (lstripDots (strLower original_suffix) ≠ "" →
        lstripDots (strLower original_suffix) ≠ "jpg" →
        lstripDots (strLower original_suffix) ≠ "jpeg" →
        lstripDots (strLower original_suffix) ≠ "png" →
        resolve_qt_format ExportFormat.KEEP original_suffix =
          strUpper (lstripDots (strLower original_suffix))) ∧
    (resolve_extension ExportFormat.PNG original_suffix = "png" ∧
      resolve_qt_format ExportFormat.PNG original_suffix = "PNG" ∧
      resolve_extension ExportFormat.JPEG original_suffix = "jpg" ∧
      resolve_qt_format ExportFormat.JPEG original_suffix = "JPEG") := by
  refine ⟨?_, ?_, ?_, ?_, ?_, ?_, ?_, ?_, ?_⟩
  · intro h
    constructor <;> simp [resolve_extension, resolve_qt_format, h]
  · intro h
    simp [resolve_extension, h]
  · intro h
    rcases h with h | h <;> simp [resolve_qt_format, h]
  · intro h
    simp [resolve_qt_format, h]
  · intro h1 h2 h3 h4
    simp [resolve_qt_format, h1, h2, h3, h4]
  · simp [resolve_extension]
  · simp [resolve_qt_format]
  · simp [resolve_extension]
  · simp [resolve_qt_format]

/-- Witness for C8 on the concrete suffixes ".PNG" (keeps png), ".jpeg"
(JPEG encoder) and ".bmp" (uppercased encoder, no PNG fallback). -/
theorem C8_witness :
    resolve_extension ExportFormat.KEEP ".PNG" = "png" ∧
    resolve_qt_format ExportFormat.KEEP ".jpeg" = "JPEG" ∧
    resolve_qt_format ExportFormat.KEEP ".bmp" = "BMP" ∧
    resolve_extension ExportFormat.PNG ".bmp" = "png" := by
  refine ⟨?_, ?_, ?_, (C8_extension_resolution ".bmp").2.2.2.2.2.1⟩
  · have h := (C8_extension_resolution ".PNG").2.1 (by decide)
    rw [h]
    decide
  · exact (C8_extension_resolution ".jpeg").2.2.1 (Or.inr (by decide))
  · have h := (C8_extension_resolution ".bmp").2.2.2.2.1 (by decide) (by decide) (by decide)
      (by decide)
    rw [h]
    decide

/-- Witness for C1 (amended) at a concrete input with a line at y = height. -/
theorem C1_witness :
    (export_image_segments 64 [⟨3, 64, false, "horizontal"⟩] "d" ExportFormat.JPEG 80 ".jpg"
        none (fun _ => false)).skipped = [] :=
  (C1_skipped_always_empty 64 [⟨3, 64, false, "horizontal"⟩] "d" ExportFormat.JPEG 80 ".jpg"
    (fun _ => false)).1

/-- Witness for C5 (general numbering conjunct) at a concrete input. -/
theorem C5_witness :
    (export_image_segments 10 [] "d" ExportFormat.PNG 90 "" none (fun _ => true)).written =
      (List.range (valid_segments (10 : ℤ) []).length).map (fun k =>
        "d" ++ "/" ++ zeroPad (pad_width_of (valid_segments (10 : ℤ) []).length) (1 + k) ++
          "." ++ resolve_extension ExportFormat.PNG "") :=
  C5_segmentation_and_numbering.2.1 10 [] "d" ExportFormat.PNG 90 "" (fun _ => true)
    (fun _ => rfl)

/-
  ## The controller and command stack (commands.py, controller.py)
-/

/-- The dict `GuideController._lines` modelled as its values in insertion
order (Python dicts preserve insertion order); an entry's key is its line's
own id, exactly as in the code (`self._lines[line.id] = line`). -/
abbrev Lines := List GuideLine

/-- Dict lookup: `self._lines[line_id]` / `line_id in self._lines`. -/
def linesFind (lineId : Nat) (ls : Lines) : Option GuideLine :=
  ls.find? (fun l => l.id = lineId)

/-- Dict assignment `self._lines[l.id] = l`: replace in place when the key
exists (Python dicts keep the original position), append otherwise. -/
def linesUpsert (l : GuideLine) : Lines → Lines
  | [] => [l]
  | e :: rest => if e.id = l.id then l :: rest else e :: linesUpsert l rest

/-- Dict deletion `del self._lines[line_id]`: drop the entry with that key
(ids are unique keys, so at most one entry matches). -/
def linesRemove (lineId : Nat) : Lines → Lines
  | [] => []
  | e :: rest =>
    if e.id = lineId then linesRemove lineId rest else e :: linesRemove lineId rest

/-- controller._move_line: look up, then `self._lines[line_id] =
replace(line, y=new_y)` (no-op when the id is absent). -/
def linesMoveY (lineId : Nat) (newY : ℚ) (ls : Lines) : Lines :=
  match linesFind lineId ls with
  | none => ls
  | some l => linesUpsert { l with y := newY } ls

/-- controller._set_locked: `self._lines[line_id] = replace(line, locked=locked)`. -/
def linesSetLocked (lineId : Nat) (locked : Bool) (ls : Lines) : Lines :=
  match linesFind lineId ls with
  | none => ls
  | some l => linesUpsert { l with locked := locked } ls

/-- The controller state the commands mutate: `_lines` and `_selected_id`. -/
structure CoreState where
  lines : Lines
  selected : Option Nat
deriving DecidableEq, Repr

/-- commands.py: the five command variants, each storing exactly the data the
Python object holds (the controller back-reference is implicit). -/
inductive Command where
  | addLine (line : GuideLine)
  | deleteLine (line : GuideLine)
  | moveLine (lineId : Nat) (oldY newY : ℚ)
  | lockLine (lineId : Nat) (locked : Bool)
  | clearLines (previous : List GuideLine)
deriving DecidableEq, Repr

/-- controller._add_line: `self._lines[line.id] = line`; the selection is not
touched. -/
def coreAddLine (line : GuideLine) (s : CoreState) : CoreState :=
  { s with lines := linesUpsert line s.lines }

/-- controller._remove_line: delete the entry and clear the selection if it
pointed at the removed line. -/
def coreRemoveLine (lineId : Nat) (s : CoreState) : CoreState :=
  { lines := linesRemove lineId s.lines,
    selected := if s.selected = some lineId then none else s.selected }

/-- controller._set_all_lines: `self._lines = {l.id: l for l in lines}` and
`self._selected_id = None`. -/
def coreSetAllLines (lines : List GuideLine) (_s : CoreState) : CoreState :=
  { lines := lines, selected := none }

/-- controller._move_line on the full core state. -/
def coreMoveLine (lineId : Nat) (newY : ℚ) (s : CoreState) : CoreState :=
  { s with lines := linesMoveY lineId newY s.lines }

/-- controller._set_locked on the full core state. -/
def coreSetLocked (lineId : Nat) (locked : Bool) (s : CoreState) : CoreState :=
  { s with lines := linesSetLocked lineId locked s.lines }

/-- `command.do()` per variant (commands.py). -/
def Command.doC : Command → CoreState → CoreState
  | .addLine line => coreAddLine line
  | .deleteLine line => coreRemoveLine line.id
  | .moveLine lineId _ newY => coreMoveLine lineId newY
  | .lockLine lineId locked => coreSetLocked lineId locked
  | .clearLines _ => coreSetAllLines []

/-- `command.undo()` per variant (commands.py). -/
def Command.undoC : Command → CoreState → CoreState
  | .addLine line => coreRemoveLine line.id
  | .deleteLine line => coreAddLine line
  | .moveLine lineId oldY _ => coreMoveLine lineId oldY
  | .lockLine lineId locked => coreSetLocked lineId (!locked)
  | .clearLines previous => coreSetAllLines previous

/-- The action of `do()` on the line dict alone (no command reads the
selection while updating the dict). -/
def Command.doL : Command → Lines → Lines
  | .addLine line => linesUpsert line
  | .deleteLine line => linesRemove line.id
  | .moveLine lineId _ newY => linesMoveY lineId newY
  | .lockLine lineId locked => linesSetLocked lineId locked
  | .clearLines _ => fun _ => []

/-- The action of `undo()` on the line dict alone. -/
def Command.undoL : Command → Lines → Lines
  | .addLine line => linesRemove line.id
  | .deleteLine line => linesUpsert line
  | .moveLine lineId oldY _ => linesMoveY lineId oldY
  | .lockLine lineId locked => linesSetLocked lineId (!locked)
  | .clearLines previous => fun _ => previous

/-- GuideController session state. The loaded image is retained as its pixel
height — the only attribute the core logic reads; `nextId` is the fresh-uuid
counter; `stack`/`idx` are the embedded CommandStack (`_stack`, `_index`);
`status` records the emitted status-message keys in order. -/
structure ControllerState where
  core : CoreState
  image : Option Nat
  snap_mode : SnapMode
  grid_size : ℤ
  stack : List Command
  idx : ℤ
  nextId : Nat
  status : List String
deriving DecidableEq, Repr

namespace Controller

/-- `self.status_message.emit(self._i18n.tr(key, ...))`, recorded as the key. -/
def emitStatus (key : String) (s : ControllerState) : ControllerState :=
  { s with status := s.status ++ [key] }

/-- controller._normalize_y. -/
def normalize_y (s : ControllerState) (y : ℚ) : ℚ :=
  match s.image with
  | none => y
  | some h => clamp (apply_snap y s.snap_mode s.grid_size) 0 (h : ℚ)

/-- controller._is_duplicate_y. -/
def is_duplicate_y (s : ControllerState) (y : ℚ) (excludeId : Option Nat) : Bool :=
  s.core.lines.any (fun l =>
    (match excludeId with
     | some e => decide (¬ l.id = e)
     | none => true) && decide (|l.y - y| < 1/10))

/-- CommandStack.push_and_execute (commands.py lines 35-41): truncate the
redoable tail, append, advance the cursor, run `command.do()`. -/
def push_and_execute (c : Command) (s : ControllerState) : ControllerState :=
  let stack := if s.idx + 1 < (s.stack.length : ℤ) then s.stack.take (s.idx + 1).toNat
               else s.stack
  { s with stack := stack ++ [c], idx := s.idx + 1, core := Command.doC c s.core }

/-- CommandStack.can_undo. -/
def can_undo (s : ControllerState) : Bool := s.idx ≥ 0

/-- CommandStack.can_redo. -/
def can_redo (s : ControllerState) : Bool := s.idx + 1 < (s.stack.length : ℤ)

/-- CommandStack.undo, which `GuideController.undo` wraps (adding only the
stateless undo-state signal). The `none` arm is unreachable: the stack
invariant keeps `idx < len(stack)`. -/
def undo (s : ControllerState) : ControllerState :=
  if s.idx ≥ 0 then
    match s.stack[s.idx.toNat]? with
    | some c => { s with core := Command.undoC c s.core, idx := s.idx - 1 }
    | none => s
  else s

/-- CommandStack.redo, which `GuideController.redo` wraps. -/
def redo (s : ControllerState) : ControllerState :=
  if s.idx + 1 < (s.stack.length : ℤ) then
    match s.stack[(s.idx + 1).toNat]? with
    | some c => { s with core := Command.doC c s.core, idx := s.idx + 1 }
    | none => s
  else s

/-- GuideController.select_line. -/
def select_line (lineId : Option Nat) (s : ControllerState) : ControllerState :=
  match lineId with
  | some i =>
    if (linesFind i s.core.lines).isSome then
      { s with core := { s.core with selected := some i } }
    else s
  | none => { s with core := { s.core with selected := none } }

/-- GuideController.add_line: reject without an image; normalize; reject
duplicates with a status message; else push AddLineCommand with a fresh id
and select the new line. -/
def add_line (y : ℚ) (s : ControllerState) : ControllerState :=
  match s.image with
  | none => emitStatus "status.open_first" s
  | some _ =>
    let y2 := normalize_y s y
    if is_duplicate_y s y2 none then emitStatus "status.line_exists" s
    else
      let line : GuideLine := { id := s.nextId, y := y2 }
      let s2 := push_and_execute (Command.addLine line) { s with nextId := s.nextId + 1 }
      select_line (some line.id) s2

/-- GuideController.delete_line: the target is the explicit id or the current
selection; a missing target is a silent no-op. -/
def delete_line (lineId : Option Nat) (s : ControllerState) : ControllerState :=
  let targetId := match lineId with
                  | some i => some i
                  | none => s.core.selected
  match targetId with
  | none => s
  | some target =>
    match linesFind target s.core.lines with
    | none => s
    | some line =>
      let s2 := push_and_execute (Command.deleteLine line) s
      if s2.core.selected = some target then
        { s2 with core := { s2.core with selected := none } }
      else s2

/-- GuideController.clear_lines. -/
def clear_lines (s : ControllerState) : ControllerState :=
  if s.core.lines = [] then s
  else
    let previous := sortedByY s.core.lines
    let s2 := push_and_execute (Command.clearLines previous) s
    { s2 with core := { s2.core with selected := none } }

/-- GuideController.move_line: silent no-op when the id is absent or no image
is loaded or the normalized delta from the line's own y is < 0.1; a duplicate
with another line is rejected with a status message. -/
def move_line (lineId : Nat) (newY : ℚ) (s : ControllerState) : ControllerState :=
  match linesFind lineId s.core.lines, s.image with
  | some line, some _ =>
    let newY2 := normalize_y s newY
    if |newY2 - line.y| < 1/10 then s
    else if is_duplicate_y s newY2 (some lineId) then
      emitStatus "status.line_exists_other" s
    else push_and_execute (Command.moveLine lineId line.y newY2) s
  | _, _ => s

/-- GuideController.set_locked: no-op when the id is absent or the flag is
unchanged. -/
def set_locked (lineId : Nat) (locked : Bool) (s : ControllerState) : ControllerState :=
  match linesFind lineId s.core.lines with
  | none => s
  | some line =>
    if line.locked = locked then s
    else push_and_execute (Command.lockLine lineId locked) s

/-- GuideController.set_snap_mode (state change plus one status message). -/
def set_snap_mode (mode : SnapMode) (s : ControllerState) : ControllerState :=
  emitStatus "status.snap_mode" { s with snap_mode := mode }

/-- GuideController.set_grid_size: `self.grid_size = max(1, size)`. -/
def set_grid_size (size : ℤ) (s : ControllerState) : ControllerState :=
  { s with grid_size := max 1 size }

end Controller

/-- One public controller call (C2's and C3's operation alphabet plus
selection and snap configuration). -/
inductive Op where
  | addLine (y : ℚ)
  | deleteLine (lineId : Option Nat)
  | moveLine (lineId : Nat) (newY : ℚ)
  | setLocked (lineId : Nat) (locked : Bool)
  | clearLines
  | selectLine (lineId : Option Nat)
  | setSnapMode (mode : SnapMode)
  | setGridSize (size : ℤ)
  | undo
  | redo
deriving DecidableEq, Repr

/-- Dispatch one public call. -/
def applyOp : Op → ControllerState → ControllerState
  | .addLine y => Controller.add_line y
  | .deleteLine lineId => Controller.delete_line lineId
  | .moveLine lineId newY => Controller.move_line lineId newY
  | .setLocked lineId locked => Controller.set_locked lineId locked
  | .clearLines => Controller.clear_lines
  | .selectLine lineId => Controller.select_line lineId
  | .setSnapMode mode => Controller.set_snap_mode mode
  | .setGridSize size => Controller.set_grid_size size
  | .undo => Controller.undo
  | .redo => Controller.redo

/-- Run a whole call sequence. -/
def applyOps (ops : List Op) (s : ControllerState) : ControllerState :=
  ops.foldl (fun s op => applyOp op s) s

/-- Iterated `undo`. -/
def undoN : Nat → ControllerState → ControllerState
  | 0, s => s
  | n + 1, s => undoN n (Controller.undo s)

/-- Calling `undo` until `can_undo` is false: `(idx + 1).toNat` calls do it
(each successful undo decrements `idx` by one). -/
def unwindAll (s : ControllerState) : ControllerState := undoN (s.idx + 1).toNat s

/-- Lookup-level equality of two line dicts: the same id-to-GuideLine
mapping. -/
def LinesEquiv (ls ls2 : Lines) : Prop := ∀ i : Nat, linesFind i ls = linesFind i ls2

/-- The dict keys are pairwise distinct. -/
def idsNodup (ls : Lines) : Prop := (ls.map (fun l => l.id)).Nodup

/-- Every id in the dict is below the fresh-id counter. -/
def idsBelow (n : Nat) (ls : Lines) : Prop := ∀ l ∈ ls, l.id < n

/-- C3's duplicate-prevention invariant: two lines with distinct ids are
never within 0.1 px of each other. -/
def noClose (ls : Lines) : Prop :=
  ∀ a ∈ ls, ∀ b ∈ ls, a.id ≠ b.id → ¬(|a.y - b.y| < 1/10)


theorem linesFind_cons_of_eq {e : GuideLine} {q : Nat} (h : e.id = q) (rest : Lines) :
    linesFind q (e :: rest) = some e := by
  rw [linesFind]
  exact List.find?_cons_of_pos _ (by simp [h])

theorem linesFind_cons_of_ne {e : GuideLine} {q : Nat} (h : ¬ e.id = q) (rest : Lines) :
    linesFind q (e :: rest) = linesFind q rest := by
  rw [linesFind]
  rw [List.find?_cons_of_neg _ (by simp [h])]
  rfl

theorem linesFind_upsert (q : Nat) (l : GuideLine) (ls : Lines) :
    linesFind q (linesUpsert l ls) = if q = l.id then some l else linesFind q ls := by
  induction ls with
  | nil =>
    by_cases h : q = l.id
    · rw [if_pos h, linesUpsert, linesFind_cons_of_eq h.symm]
    · rw [if_neg h, linesUpsert, linesFind_cons_of_ne (fun hh => h hh.symm)]
  | cons e rest ih =>
    simp only [linesUpsert]
    by_cases he : e.id = l.id
    · rw [if_pos he]
      by_cases hq : q = l.id
      · rw [if_pos hq, linesFind_cons_of_eq hq.symm]
      · rw [if_neg hq, linesFind_cons_of_ne (fun hh => hq hh.symm),
          linesFind_cons_of_ne (fun hh => hq (by rw [← hh, he]))]
    · rw [if_neg he]
      by_cases hq : q = e.id
      · have hql : ¬ q = l.id := fun h2 => he (by rw [← hq]; exact h2)
        rw [if_neg hql, linesFind_cons_of_eq hq.symm, linesFind_cons_of_eq hq.symm]
      · rw [linesFind_cons_of_ne (fun hh => hq hh.symm),
          linesFind_cons_of_ne (fun hh => hq hh.symm)]
        exact ih

theorem linesFind_remove (q lineId : Nat) (ls : Lines) :
    linesFind q (linesRemove lineId ls) = if q = lineId then none else linesFind q ls := by
  induction ls with
  | nil =>
    simp only [linesRemove]
    by_cases h : q = lineId
    · rw [if_pos h]
      rfl
    · rw [if_neg h]
  | cons e rest ih =>
    simp only [linesRemove]
    by_cases he : e.id = lineId
    · rw [if_pos he]
      by_cases hq : q = lineId
      · rw [if_pos hq] at ih ⊢
        exact ih
      · rw [if_neg hq] at ih ⊢
        rw [linesFind_cons_of_ne (fun hh => hq (by rw [← hh, he]))]
        exact ih
    · rw [if_neg he]
      by_cases hq : q = lineId
      · rw [if_pos hq] at ih ⊢
        rw [linesFind_cons_of_ne (fun hh => he (by rw [hh, hq]))]
        exact ih
      · rw [if_neg hq] at ih ⊢
        by_cases hqe : e.id = q
        · rw [linesFind_cons_of_eq hqe, linesFind_cons_of_eq hqe]
        · rw [linesFind_cons_of_ne hqe, linesFind_cons_of_ne hqe]
          exact ih

theorem linesFind_some_id {q : Nat} {ls : Lines} {l : GuideLine}
    (h : linesFind q ls = some l) : l.id = q := by
  have := List.find?_some h
  simpa using this

theorem linesFind_some_mem {q : Nat} {ls : Lines} {l : GuideLine}
    (h : linesFind q ls = some l) : l ∈ ls :=
  List.mem_of_find?_eq_some h

theorem linesFind_eq_none {q : Nat} {ls : Lines} (h : ∀ l ∈ ls, l.id ≠ q) :
    linesFind q ls = none := by
  rw [linesFind, List.find?_eq_none]
  intro x hx
  simp [h x hx]

theorem linesFind_moveY (q lineId : Nat) (newY : ℚ) (ls : Lines) :
    linesFind q (linesMoveY lineId newY ls) =
      match linesFind lineId ls with
      | none => linesFind q ls
      | some l => if q = lineId then some { l with y := newY } else linesFind q ls := by
  rw [linesMoveY]
  cases hf : linesFind lineId ls with
  | none => rfl
  | some l =>
    have hid : l.id = lineId := linesFind_some_id hf
    simp only [linesFind_upsert]
    rw [show ({ l with y := newY } : GuideLine).id = lineId from hid]

theorem linesFind_setLocked (q lineId : Nat) (locked : Bool) (ls : Lines) :
    linesFind q (linesSetLocked lineId locked ls) =
      match linesFind lineId ls with
      | none => linesFind q ls
      | some l => if q = lineId then some { l with locked := locked }
                  else linesFind q ls := by
  rw [linesSetLocked]
  cases hf : linesFind lineId ls with
  | none => rfl
  | some l =>
    have hid : l.id = lineId := linesFind_some_id hf
    simp only [linesFind_upsert]
    rw [show ({ l with locked := locked } : GuideLine).id = lineId from hid]

theorem linesRemove_sublist (lineId : Nat) : ∀ ls : Lines, (linesRemove lineId ls).Sublist ls := by
  intro ls
  induction ls with
  | nil => simp [linesRemove]
  | cons e rest ih =>
    simp only [linesRemove]
    by_cases he : e.id = lineId
    · rw [if_pos he]
      exact ih.cons _
    · rw [if_neg he]
      exact ih.cons₂ _

theorem mem_upsert {a l : GuideLine} : ∀ {ls : Lines}, a ∈ linesUpsert l ls → a = l ∨ a ∈ ls := by
  intro ls
  induction ls with
  | nil =>
    intro h
    simp only [linesUpsert, List.mem_singleton] at h
    exact Or.inl h
  | cons e rest ih =>
    intro h
    simp only [linesUpsert] at h
    by_cases he : e.id = l.id
    · rw [if_pos he] at h
      rcases List.mem_cons.mp h with rfl | h
      · exact Or.inl rfl
      · exact Or.inr (List.mem_cons_of_mem _ h)
    · rw [if_neg he] at h
      rcases List.mem_cons.mp h with rfl | h
      · exact Or.inr (List.mem_cons_self _ _)
      · rcases ih h with h | h
        · exact Or.inl h
        · exact Or.inr (List.mem_cons_of_mem _ h)

theorem idsNodup_upsert (l : GuideLine) : ∀ ls : Lines, idsNodup ls →
    idsNodup (linesUpsert l ls) := by
  intro ls
  induction ls with
  | nil =>
    intro _
    simp [linesUpsert, idsNodup]
  | cons e rest ih =>
    intro h
    rw [idsNodup, List.map_cons, List.nodup_cons] at h
    obtain ⟨hnotin, hrest⟩ := h
    simp only [linesUpsert]
    by_cases he : e.id = l.id
    · rw [if_pos he]
      rw [idsNodup, List.map_cons, List.nodup_cons]
      exact ⟨by rw [← he]; exact hnotin, hrest⟩
    · rw [if_neg he]
      rw [idsNodup, List.map_cons, List.nodup_cons]
      refine ⟨?_, ih hrest⟩
      intro hmem
      rcases List.mem_map.mp hmem with ⟨a, ha, haid⟩
      rcases mem_upsert ha with rfl | ha
      · exact he haid.symm
      · exact hnotin (List.mem_map.mpr ⟨a, ha, haid⟩)

theorem idsNodup_remove (lineId : Nat) {ls : Lines} (h : idsNodup ls) :
    idsNodup (linesRemove lineId ls) :=
  List.Nodup.sublist (List.Sublist.map _ (linesRemove_sublist lineId ls)) h

theorem mem_iff_linesFind {ls : Lines} (h : idsNodup ls) (l : GuideLine) :
    l ∈ ls ↔ linesFind l.id ls = some l := by
  constructor
  · intro hmem
    induction ls with
    | nil => cases hmem
    | cons e rest ih =>
      rw [idsNodup, List.map_cons, List.nodup_cons] at h
      rcases List.mem_cons.mp hmem with rfl | hmem
      · exact linesFind_cons_of_eq rfl rest
      · have hne : ¬ e.id = l.id := by
          intro hh
          exact h.1 (hh ▸ List.mem_map.mpr ⟨l, hmem, rfl⟩)
        rw [linesFind_cons_of_ne hne]
        exact ih h.2 hmem
  · exact linesFind_some_mem

theorem mem_upsert_iff {l : GuideLine} {ls : Lines} (h : idsNodup ls) (a : GuideLine) :
    a ∈ linesUpsert l ls ↔ (a = l ∨ (a ∈ ls ∧ a.id ≠ l.id)) := by
  rw [mem_iff_linesFind (idsNodup_upsert l ls h), linesFind_upsert]
  by_cases hid : a.id = l.id
  · rw [if_pos hid]
    constructor
    · intro hh
      exact Or.inl (Option.some.inj hh).symm
    · intro hh
      rcases hh with rfl | ⟨_, hne⟩
      · rfl
      · exact absurd hid hne
  · rw [if_neg hid]
    rw [← mem_iff_linesFind h]
    constructor
    · intro hh
      exact Or.inr ⟨hh, hid⟩
    · intro hh
      rcases hh with rfl | ⟨hmem, _⟩
      · exact absurd rfl hid
      · exact hmem

theorem LinesEquiv.refl (ls : Lines) : LinesEquiv ls ls := fun _ => rfl

theorem LinesEquiv.symm {ls ls2 : Lines} (h : LinesEquiv ls ls2) : LinesEquiv ls2 ls :=
  fun i => (h i).symm

theorem LinesEquiv.trans {ls ls2 ls3 : Lines} (h : LinesEquiv ls ls2)
    (h2 : LinesEquiv ls2 ls3) : LinesEquiv ls ls3 :=
  fun i => (h i).trans (h2 i)

theorem LinesEquiv.upsert (l : GuideLine) {ls ls2 : Lines} (h : LinesEquiv ls ls2) :
    LinesEquiv (linesUpsert l ls) (linesUpsert l ls2) := by
  intro i
  rw [linesFind_upsert, linesFind_upsert, h i]

theorem LinesEquiv.remove (lineId : Nat) {ls ls2 : Lines} (h : LinesEquiv ls ls2) :
    LinesEquiv (linesRemove lineId ls) (linesRemove lineId ls2) := by
  intro i
  rw [linesFind_remove, linesFind_remove, h i]

theorem LinesEquiv.moveY (lineId : Nat) (newY : ℚ) {ls ls2 : Lines}
    (h : LinesEquiv ls ls2) :
    LinesEquiv (linesMoveY lineId newY ls) (linesMoveY lineId newY ls2) := by
  intro i
  rw [linesFind_moveY, linesFind_moveY, h lineId]
  cases linesFind lineId ls2 with
  | none => exact h i
  | some l =>
    dsimp only
    by_cases hq : i = lineId
    · rw [if_pos hq, if_pos hq]
    · rw [if_neg hq, if_neg hq]
      exact h i

theorem LinesEquiv.setLocked (lineId : Nat) (locked : Bool) {ls ls2 : Lines}
    (h : LinesEquiv ls ls2) :
    LinesEquiv (linesSetLocked lineId locked ls) (linesSetLocked lineId locked ls2) := by
  intro i
  rw [linesFind_setLocked, linesFind_setLocked, h lineId]
  cases linesFind lineId ls2 with
  | none => exact h i
  | some l =>
    dsimp only
    by_cases hq : i = lineId
    · rw [if_pos hq, if_pos hq]
    · rw [if_neg hq, if_neg hq]
      exact h i

theorem Command.doL_equiv (c : Command) {ls ls2 : Lines} (h : LinesEquiv ls ls2) :
    LinesEquiv (Command.doL c ls) (Command.doL c ls2) := by
  cases c with
  | addLine line => exact LinesEquiv.upsert line h
  | deleteLine line => exact LinesEquiv.remove line.id h
  | moveLine lineId oldY newY => exact LinesEquiv.moveY lineId newY h
  | lockLine lineId locked => exact LinesEquiv.setLocked lineId locked h
  | clearLines previous => exact LinesEquiv.refl _

theorem Command.undoL_equiv (c : Command) {ls ls2 : Lines} (h : LinesEquiv ls ls2) :
    LinesEquiv (Command.undoL c ls) (Command.undoL c ls2) := by
  cases c with
  | addLine line => exact LinesEquiv.remove line.id h
  | deleteLine line => exact LinesEquiv.upsert line h
  | moveLine lineId oldY newY => exact LinesEquiv.moveY lineId oldY h
  | lockLine lineId locked => exact LinesEquiv.setLocked lineId (!locked) h
  | clearLines previous => exact LinesEquiv.refl _

theorem upsert_remove_cancel {l : GuideLine} {ls : Lines}
    (h : linesFind l.id ls = none) :
    LinesEquiv (linesRemove l.id (linesUpsert l ls)) ls := by
  intro i
  rw [linesFind_remove, linesFind_upsert]
  by_cases hq : i = l.id
  · rw [if_pos hq, hq, h]
  · rw [if_neg hq, if_neg hq]

theorem remove_upsert_cancel {l : GuideLine} {ls : Lines}
    (h : linesFind l.id ls = some l) :
    LinesEquiv (linesUpsert l (linesRemove l.id ls)) ls := by
  intro i
  rw [linesFind_upsert, linesFind_remove]
  by_cases hq : i = l.id
  · rw [if_pos hq, hq, h]
  · rw [if_neg hq, if_neg hq]

theorem upsert_upsert_same_id {l l2 : GuideLine} (hid : l.id = l2.id) (ls : Lines) :
    LinesEquiv (linesUpsert l (linesUpsert l2 ls)) (linesUpsert l ls) := by
  intro i
  rw [linesFind_upsert, linesFind_upsert, linesFind_upsert]
  by_cases hq : i = l.id
  · rw [if_pos hq, if_pos hq]
  · rw [if_neg hq, if_neg hq, if_neg (by rw [← hid]; exact hq)]

theorem upsert_found_cancel {l : GuideLine} {ls : Lines}
    (h : linesFind l.id ls = some l) :
    LinesEquiv (linesUpsert l ls) ls := by
  intro i
  rw [linesFind_upsert]
  by_cases hq : i = l.id
  · rw [if_pos hq, hq, h]
  · rw [if_neg hq]

theorem moveY_cancel {lineId : Nat} {ls : Lines} {line : GuideLine} (newY : ℚ)
    (hfind : linesFind lineId ls = some line) :
    LinesEquiv (linesMoveY lineId line.y (linesMoveY lineId newY ls)) ls := by
  have hid : line.id = lineId := linesFind_some_id hfind
  have h1 : linesMoveY lineId newY ls = linesUpsert { line with y := newY } ls := by
    rw [linesMoveY, hfind]
  have h2 : linesFind lineId (linesUpsert { line with y := newY } ls) =
      some { line with y := newY } := by
    rw [linesFind_upsert, if_pos]
    exact hid.symm
  rw [h1, linesMoveY, h2]
  dsimp only
  exact LinesEquiv.trans (@upsert_upsert_same_id line { line with y := newY } rfl ls)
    (upsert_found_cancel (by rw [hid]; exact hfind))

theorem setLocked_cancel {lineId : Nat} {ls : Lines} {line : GuideLine} {locked : Bool}
    (hfind : linesFind lineId ls = some line) (hlb : line.locked = !locked) :
    LinesEquiv (linesSetLocked lineId (!locked) (linesSetLocked lineId locked ls)) ls := by
  have hid : line.id = lineId := linesFind_some_id hfind
  have h1 : linesSetLocked lineId locked ls = linesUpsert { line with locked := locked } ls := by
    rw [linesSetLocked, hfind]
  have h2 : linesFind lineId (linesUpsert { line with locked := locked } ls) =
      some { line with locked := locked } := by
    rw [linesFind_upsert, if_pos]
    exact hid.symm
  rw [h1, linesSetLocked, h2]
  dsimp only
  have h3 : ({ id := line.id, y := line.y, locked := !locked, kind := line.kind } :
      GuideLine) = line := by
    rw [← hlb]
  rw [h3]
  exact LinesEquiv.trans (@upsert_upsert_same_id line { line with locked := locked } rfl ls)
    (upsert_found_cancel (by rw [hid]; exact hfind))

theorem perm_linesEquiv {ls ls2 : Lines} (hperm : ls.Perm ls2) (h2 : idsNodup ls2) :
    LinesEquiv ls ls2 := by
  have h1 : idsNodup ls := by
    simp only [idsNodup] at h2 ⊢
    exact ((hperm.map (fun l => l.id)).nodup_iff).mpr h2
  intro i
  cases hf : linesFind i ls2 with
  | some l =>
    have hmem : l ∈ ls := hperm.mem_iff.mpr (linesFind_some_mem hf)
    have hid : l.id = i := linesFind_some_id hf
    have hfound := (mem_iff_linesFind h1 l).mp hmem
    rw [hid] at hfound
    exact hfound
  | none =>
    rw [linesFind, List.find?_eq_none] at hf ⊢
    intro x hx
    exact hf x (hperm.mem_iff.mp hx)

theorem noClose_equiv {ls ls2 : Lines} (h : LinesEquiv ls ls2) (h1 : idsNodup ls)
    (h2 : idsNodup ls2) (hnc : noClose ls) : noClose ls2 := by
  intro a ha b hb hne
  have ha2 : a ∈ ls := by
    rw [mem_iff_linesFind h1, h a.id, ← mem_iff_linesFind h2]
    exact ha
  have hb2 : b ∈ ls := by
    rw [mem_iff_linesFind h1, h b.id, ← mem_iff_linesFind h2]
    exact hb
  exact hnc a ha2 b hb2 hne

theorem idsBelow_equiv {n : Nat} {ls ls2 : Lines} (h : LinesEquiv ls ls2)
    (h1 : idsNodup ls) (h2 : idsNodup ls2) (hb : idsBelow n ls) : idsBelow n ls2 := by
  intro l hl
  have : l ∈ ls := by
    rw [mem_iff_linesFind h1, h l.id, ← mem_iff_linesFind h2]
    exact hl
  exact hb l this

/-- The well-formedness of a stored command relative to the fresh-id counter:
ids already handed out, and a ClearLines snapshot that is itself a healthy
dict (it was captured from one). -/
def CmdInv (n : Nat) : Command → Prop
  | .addLine line => line.id < n
  | .deleteLine line => line.id < n
  | .moveLine _ _ _ => True
  | .lockLine _ _ => True
  | .clearLines previous => idsBelow n previous ∧ idsNodup previous ∧ noClose previous

theorem CmdInv.mono {n n2 : Nat} (h : n ≤ n2) : ∀ {c : Command}, CmdInv n c → CmdInv n2 c := by
  intro c
  cases c with
  | addLine line => exact fun hc => lt_of_lt_of_le hc h
  | deleteLine line => exact fun hc => lt_of_lt_of_le hc h
  | moveLine lineId oldY newY => exact fun _ => trivial
  | lockLine lineId locked => exact fun _ => trivial
  | clearLines previous =>
    exact fun hc => ⟨fun l hl => lt_of_lt_of_le (hc.1 l hl) h, hc.2.1, hc.2.2⟩

theorem idsBelow_mono {n n2 : Nat} (h : n ≤ n2) {ls : Lines} (hb : idsBelow n ls) :
    idsBelow n2 ls :=
  fun l hl => lt_of_lt_of_le (hb l hl) h

theorem idsBelow_upsert {n : Nat} {l : GuideLine} {ls : Lines} (hb : idsBelow n ls)
    (hl : l.id < n) : idsBelow n (linesUpsert l ls) := by
  intro a ha
  rcases mem_upsert ha with rfl | ha
  · exact hl
  · exact hb a ha

theorem idsBelow_remove {n : Nat} (lineId : Nat) {ls : Lines} (hb : idsBelow n ls) :
    idsBelow n (linesRemove lineId ls) :=
  fun a ha => hb a ((linesRemove_sublist lineId ls).mem ha)

theorem idsNodup_moveY (lineId : Nat) (newY : ℚ) {ls : Lines} (h : idsNodup ls) :
    idsNodup (linesMoveY lineId newY ls) := by
  rw [linesMoveY]
  cases linesFind lineId ls with
  | none => exact h
  | some l => exact idsNodup_upsert _ _ h

theorem idsNodup_setLocked (lineId : Nat) (locked : Bool) {ls : Lines} (h : idsNodup ls) :
    idsNodup (linesSetLocked lineId locked ls) := by
  rw [linesSetLocked]
  cases linesFind lineId ls with
  | none => exact h
  | some l => exact idsNodup_upsert _ _ h

theorem idsBelow_moveY {n : Nat} (lineId : Nat) (newY : ℚ) {ls : Lines}
    (hb : idsBelow n ls) : idsBelow n (linesMoveY lineId newY ls) := by
  rw [linesMoveY]
  cases hf : linesFind lineId ls with
  | none => exact hb
  | some l => exact idsBelow_upsert hb (hb l (linesFind_some_mem hf))

theorem idsBelow_setLocked {n : Nat} (lineId : Nat) (locked : Bool) {ls : Lines}
    (hb : idsBelow n ls) : idsBelow n (linesSetLocked lineId locked ls) := by
  rw [linesSetLocked]
  cases hf : linesFind lineId ls with
  | none => exact hb
  | some l => exact idsBelow_upsert hb (hb l (linesFind_some_mem hf))

theorem Command.doL_nodup {n : Nat} {c : Command} (hc : CmdInv n c) {ls : Lines}
    (h : idsNodup ls) : idsNodup (Command.doL c ls) := by
  cases c with
  | addLine line => exact idsNodup_upsert _ _ h
  | deleteLine line => exact idsNodup_remove _ h
  | moveLine lineId oldY newY => exact idsNodup_moveY _ _ h
  | lockLine lineId locked => exact idsNodup_setLocked _ _ h
  | clearLines previous => simp [Command.doL, idsNodup]

theorem Command.undoL_nodup {n : Nat} {c : Command} (hc : CmdInv n c) {ls : Lines}
    (h : idsNodup ls) : idsNodup (Command.undoL c ls) := by
  cases c with
  | addLine line => exact idsNodup_remove _ h
  | deleteLine line => exact idsNodup_upsert _ _ h
  | moveLine lineId oldY newY => exact idsNodup_moveY _ _ h
  | lockLine lineId locked => exact idsNodup_setLocked _ _ h
  | clearLines previous => exact hc.2.1

theorem Command.doL_below {n : Nat} {c : Command} (hc : CmdInv n c) {ls : Lines}
    (h : idsBelow n ls) : idsBelow n (Command.doL c ls) := by
  cases c with
  | addLine line => exact idsBelow_upsert h hc
  | deleteLine line => exact idsBelow_remove _ h
  | moveLine lineId oldY newY => exact idsBelow_moveY _ _ h
  | lockLine lineId locked => exact idsBelow_setLocked _ _ h
  | clearLines previous => intro a ha; cases ha

theorem Command.undoL_below {n : Nat} {c : Command} (hc : CmdInv n c) {ls : Lines}
    (h : idsBelow n ls) : idsBelow n (Command.undoL c ls) := by
  cases c with
  | addLine line => exact idsBelow_remove _ h
  | deleteLine line => exact idsBelow_upsert h hc
  | moveLine lineId oldY newY => exact idsBelow_moveY _ _ h
  | lockLine lineId locked => exact idsBelow_setLocked _ _ h
  | clearLines previous => exact hc.1

theorem Command.doC_lines (c : Command) (s : CoreState) :
    (Command.doC c s).lines = Command.doL c s.lines := by
  cases c <;> rfl

theorem Command.undoC_lines (c : Command) (s : CoreState) :
    (Command.undoC c s).lines = Command.undoL c s.lines := by
  cases c <;> rfl

/-- Replaying a command list over an initial dict: the fold of `do()`. -/
def replayL (cmds : List Command) (init : Lines) : Lines :=
  cmds.foldl (fun ls c => Command.doL c ls) init

theorem replayL_concat (cmds : List Command) (c : Command) (init : Lines) :
    replayL (cmds ++ [c]) init = Command.doL c (replayL cmds init) :=
  List.foldl_concat _ _ _ _

theorem replayL_take_succ {cmds : List Command} {j : Nat} (h : j < cmds.length)
    (init : Lines) :
    replayL (cmds.take (j + 1)) init =
      Command.doL (cmds.get ⟨j, h⟩) (replayL (cmds.take j) init) := by
  rw [List.take_succ]
  have : cmds[j]? = some (cmds.get ⟨j, h⟩) := by
    rw [List.getElem?_eq_getElem h]
    rfl
  rw [this]
  exact List.foldl_concat _ _ _ _

theorem is_duplicate_y_none_false {s : ControllerState} {y : ℚ}
    (h : Controller.is_duplicate_y s y none = false) :
    ∀ l ∈ s.core.lines, ¬(|l.y - y| < 1/10) := by
  rw [Controller.is_duplicate_y, List.any_eq_false] at h
  intro l hl
  have := h l hl
  simpa using this

theorem is_duplicate_y_some_false {s : ControllerState} {y : ℚ} {e : Nat}
    (h : Controller.is_duplicate_y s y (some e) = false) :
    ∀ l ∈ s.core.lines, l.id ≠ e → ¬(|l.y - y| < 1/10) := by
  rw [Controller.is_duplicate_y, List.any_eq_false] at h
  intro l hl hne
  have := h l hl
  simp only [Bool.and_eq_true, decide_eq_true_eq, not_and] at this
  exact this hne

theorem noClose_upsert_replace {ls : Lines} {l : GuideLine} (hnodup : idsNodup ls)
    (hnc : noClose ls)
    (hfar : ∀ a ∈ ls, a.id ≠ l.id → ¬(|a.y - l.y| < 1/10)) :
    noClose (linesUpsert l ls) := by
  intro a ha b hb hne
  rcases (mem_upsert_iff hnodup a).mp ha with rfl | ⟨ha2, hane⟩
  · rcases (mem_upsert_iff hnodup b).mp hb with rfl | ⟨hb2, hbne⟩
    · exact absurd rfl hne
    · intro habs
      exact hfar b hb2 hbne (by rwa [abs_sub_comm])
  · rcases (mem_upsert_iff hnodup b).mp hb with rfl | ⟨hb2, hbne⟩
    · exact fun habs => hfar a ha2 hane habs
    · exact hnc a ha2 b hb2 hne

theorem noClose_remove {ls : Lines} (hnc : noClose ls) (lineId : Nat) :
    noClose (linesRemove lineId ls) := by
  intro a ha b hb hne
  exact hnc a ((linesRemove_sublist lineId ls).mem ha)
    b ((linesRemove_sublist lineId ls).mem hb) hne

theorem noClose_moveY {ls : Lines} {lineId : Nat} {newY : ℚ} (hnodup : idsNodup ls)
    (hnc : noClose ls) (hfar : ∀ a ∈ ls, a.id ≠ lineId → ¬(|a.y - newY| < 1/10)) :
    noClose (linesMoveY lineId newY ls) := by
  rw [linesMoveY]
  cases hf : linesFind lineId ls with
  | none => exact hnc
  | some l =>
    have hid : l.id = lineId := linesFind_some_id hf
    apply noClose_upsert_replace hnodup hnc
    intro a ha hane
    rw [show ({ l with y := newY } : GuideLine).id = l.id from rfl, hid] at hane
    exact hfar a ha hane

theorem noClose_setLocked {ls : Lines} {lineId : Nat} {locked : Bool}
    (hnodup : idsNodup ls) (hnc : noClose ls) :
    noClose (linesSetLocked lineId locked ls) := by
  rw [linesSetLocked]
  cases hf : linesFind lineId ls with
  | none => exact hnc
  | some l =>
    apply noClose_upsert_replace hnodup hnc
    intro a ha hane
    rw [show ({ l with locked := locked } : GuideLine).id = l.id from rfl] at hane
    exact hnc a ha l (linesFind_some_mem hf) hane

theorem getD_append_lt {α : Type} (d : α) : ∀ (xs ys : List α) (j : Nat), j < xs.length →
    (xs ++ ys).getD j d = xs.getD j d := by
  intro xs
  induction xs with
  | nil => intro ys j h; cases h
  | cons x rest ih =>
    intro ys j h
    cases j with
    | zero => rfl
    | succ j2 => exact ih ys j2 (by simpa using h)

theorem getD_concat_self {α : Type} (d x : α) : ∀ xs : List α,
    (xs ++ [x]).getD xs.length d = x := by
  intro xs
  induction xs with
  | nil => rfl
  | cons e rest ih => exact ih

theorem getD_take_lt {α : Type} (d : α) : ∀ (xs : List α) (k j : Nat), j < k →
    (xs.take k).getD j d = xs.getD j d := by
  intro xs
  induction xs with
  | nil => intro k j h; rw [List.take_nil]
  | cons x rest ih =>
    intro k j h
    cases k with
    | zero => cases h
    | succ k2 =>
      cases j with
      | zero => rfl
      | succ j2 => exact ih k2 j2 (by omega)

theorem getElem?_eq_getD {α : Type} (d : α) : ∀ (xs : List α) (j : Nat), j < xs.length →
    xs[j]? = some (xs.getD j d) := by
  intro xs
  induction xs with
  | nil => intro j h; cases h
  | cons x rest ih =>
    intro j h
    cases j with
    | zero => simp [List.getD]
    | succ j2 =>
      rw [List.getElem?_cons_succ, show (x :: rest).getD (j2 + 1) d = rest.getD j2 d from rfl]
      exact ih j2 (by simpa using h)

theorem getD_mem {α : Type} (d : α) : ∀ (xs : List α) (j : Nat), j < xs.length →
    xs.getD j d ∈ xs := by
  intro xs
  induction xs with
  | nil => intro j h; cases h
  | cons x rest ih =>
    intro j h
    cases j with
    | zero => exact List.mem_cons_self _ _
    | succ j2 => exact List.mem_cons_of_mem _ (ih j2 (by simpa using h))

/-- The controller invariant tying the live state to the replay of the
undoable prefix of the command stack over the pre-history dict `init`. -/
structure CtrlInv (init : Lines) (s : ControllerState) : Prop where
  idx_lb : -1 ≤ s.idx
  idx_ub : s.idx < (s.stack.length : ℤ)
  nodup : idsNodup s.core.lines
  below : idsBelow s.nextId s.core.lines
  cmds : ∀ c ∈ s.stack, CmdInv s.nextId c
  lines_eq : LinesEquiv s.core.lines (replayL (s.stack.take (s.idx + 1).toNat) init)
  inverse : ∀ j, j < s.stack.length →
    LinesEquiv
      (Command.undoL (s.stack.getD j (Command.clearLines []))
        (replayL (s.stack.take (j + 1)) init))
      (replayL (s.stack.take j) init)
  prefix_below : ∀ j, idsBelow s.nextId (replayL (s.stack.take j) init)
  prefix_nodup : ∀ j, idsNodup (replayL (s.stack.take j) init)
  prefix_noClose : ∀ j, noClose (replayL (s.stack.take j) init)

theorem CtrlInv.current_noClose {init : Lines} {s : ControllerState} (hinv : CtrlInv init s) :
    noClose s.core.lines :=
  noClose_equiv hinv.lines_eq.symm (hinv.prefix_nodup _) hinv.nodup
    (hinv.prefix_noClose _)

theorem CtrlInv.with_status {init : Lines} {s : ControllerState} (hinv : CtrlInv init s)
    (msgs : List String) : CtrlInv init { s with status := msgs } :=
  ⟨hinv.idx_lb, hinv.idx_ub, hinv.nodup, hinv.below, hinv.cmds, hinv.lines_eq,
    hinv.inverse, hinv.prefix_below, hinv.prefix_nodup, hinv.prefix_noClose⟩

theorem CtrlInv.with_selected {init : Lines} {s : ControllerState} (hinv : CtrlInv init s)
    (sel : Option Nat) : CtrlInv init { s with core := { s.core with selected := sel } } :=
  ⟨hinv.idx_lb, hinv.idx_ub, hinv.nodup, hinv.below, hinv.cmds, hinv.lines_eq,
    hinv.inverse, hinv.prefix_below, hinv.prefix_nodup, hinv.prefix_noClose⟩

theorem CtrlInv.with_snap {init : Lines} {s : ControllerState} (hinv : CtrlInv init s)
    (mode : SnapMode) : CtrlInv init { s with snap_mode := mode } :=
  ⟨hinv.idx_lb, hinv.idx_ub, hinv.nodup, hinv.below, hinv.cmds, hinv.lines_eq,
    hinv.inverse, hinv.prefix_below, hinv.prefix_nodup, hinv.prefix_noClose⟩

theorem CtrlInv.with_grid {init : Lines} {s : ControllerState} (hinv : CtrlInv init s)
    (size : ℤ) : CtrlInv init { s with grid_size := size } :=
  ⟨hinv.idx_lb, hinv.idx_ub, hinv.nodup, hinv.below, hinv.cmds, hinv.lines_eq,
    hinv.inverse, hinv.prefix_below, hinv.prefix_nodup, hinv.prefix_noClose⟩

theorem CtrlInv.mono_nextId {init : Lines} {s : ControllerState} (hinv : CtrlInv init s)
    {n : Nat} (h : s.nextId ≤ n) : CtrlInv init { s with nextId := n } :=
  ⟨hinv.idx_lb, hinv.idx_ub, hinv.nodup, idsBelow_mono h hinv.below,
    fun c hc => CmdInv.mono h (hinv.cmds c hc), hinv.lines_eq, hinv.inverse,
    fun j => idsBelow_mono h (hinv.prefix_below j), hinv.prefix_nodup,
    hinv.prefix_noClose⟩

theorem push_and_execute_eq (c : Command) (s : ControllerState) (h : -1 ≤ s.idx) :
    Controller.push_and_execute c s =
      { s with stack := s.stack.take (s.idx + 1).toNat ++ [c],
               idx := s.idx + 1,
               core := Command.doC c s.core } := by
  simp only [Controller.push_and_execute]
  by_cases hlt : s.idx + 1 < (s.stack.length : ℤ)
  · rw [if_pos hlt]
  · rw [if_neg hlt, List.take_of_length_le (by omega)]

theorem take_append_take {α : Type} (xs ys : List α) {k j : Nat}
    (hk : k ≤ xs.length) (hj : j ≤ k) :
    ((xs.take k) ++ ys).take j = xs.take j := by
  rw [List.take_append_of_le_length (by rw [List.length_take]; omega), List.take_take]
  congr 1
  omega

theorem push_preserves {init : Lines} {s : ControllerState} {c : Command}
    (hinv : CtrlInv init s) (hc : CmdInv s.nextId c)
    (hcancel : LinesEquiv (Command.undoL c (Command.doL c s.core.lines)) s.core.lines)
    (hnc : noClose (Command.doL c s.core.lines)) :
    CtrlInv init (Controller.push_and_execute c s) := by
  have hub := hinv.idx_ub
  have hlb := hinv.idx_lb
  rw [push_and_execute_eq c s hlb]
  have hkle : (s.idx + 1).toNat ≤ s.stack.length := by omega
  have hklen : (s.stack.take (s.idx + 1).toNat).length = (s.idx + 1).toNat := by
    rw [List.length_take]
    omega
  have hcur : LinesEquiv s.core.lines (replayL (s.stack.take (s.idx + 1).toNat) init) :=
    hinv.lines_eq
  have htakefull : ∀ j, (s.idx + 1).toNat + 1 ≤ j →
      (s.stack.take (s.idx + 1).toNat ++ [c]).take j
        = s.stack.take (s.idx + 1).toNat ++ [c] := by
    intro j hj
    apply List.take_of_length_le
    rw [List.length_append, hklen]
    simpa using hj
  have htakelow : ∀ j, j ≤ (s.idx + 1).toNat →
      (s.stack.take (s.idx + 1).toNat ++ [c]).take j = s.stack.take j :=
    fun j hj => take_append_take s.stack [c] hkle hj
  refine ⟨?_, ?_, ?_, ?_, ?_, ?_, ?_, ?_, ?_, ?_⟩
  · dsimp only
    omega
  · dsimp only
    rw [List.length_append, hklen]
    simp only [List.length_singleton]
    push_cast
    omega
  · dsimp only
    rw [Command.doC_lines]
    exact Command.doL_nodup hc hinv.nodup
  · dsimp only
    rw [Command.doC_lines]
    exact Command.doL_below hc hinv.below
  · dsimp only
    intro x hx
    rcases List.mem_append.mp hx with hx | hx
    · exact hinv.cmds x ((List.take_sublist _ _).mem hx)
    · rw [List.mem_singleton] at hx
      subst hx
      exact hc
  · dsimp only
    rw [htakefull (s.idx + 1 + 1).toNat (by omega), replayL_concat, Command.doC_lines]
    exact Command.doL_equiv c hcur
  · dsimp only
    intro j hj
    rw [List.length_append, hklen, List.length_singleton] at hj
    by_cases hjk : j < (s.idx + 1).toNat
    · have hget : (s.stack.take (s.idx + 1).toNat ++ [c]).getD j (Command.clearLines [])
          = s.stack.getD j (Command.clearLines []) := by
        rw [getD_append_lt _ _ _ _ (by rw [hklen]; omega), getD_take_lt _ _ _ _ hjk]
      rw [hget, htakelow (j + 1) (by omega), htakelow j (by omega)]
      exact hinv.inverse j (by omega)
    · have hjeq : j = (s.idx + 1).toNat := by omega
      subst hjeq
      have hget : (s.stack.take (s.idx + 1).toNat ++ [c]).getD (s.idx + 1).toNat
          (Command.clearLines []) = c := by
        have h0 := getD_concat_self (Command.clearLines []) c
          (s.stack.take (s.idx + 1).toNat)
        rw [hklen] at h0
        exact h0
      rw [hget, htakefull ((s.idx + 1).toNat + 1) (by omega),
        htakelow (s.idx + 1).toNat (by omega), replayL_concat]
      exact LinesEquiv.trans
        (Command.undoL_equiv c (Command.doL_equiv c hcur.symm))
        (LinesEquiv.trans hcancel hcur)
  · dsimp only
    intro j
    by_cases hjk : j ≤ (s.idx + 1).toNat
    · rw [htakelow j hjk]
      exact hinv.prefix_below j
    · rw [htakefull j (by omega), replayL_concat]
      exact Command.doL_below hc (hinv.prefix_below _)
  · dsimp only
    intro j
    by_cases hjk : j ≤ (s.idx + 1).toNat
    · rw [htakelow j hjk]
      exact hinv.prefix_nodup j
    · rw [htakefull j (by omega), replayL_concat]
      exact Command.doL_nodup hc (hinv.prefix_nodup _)
  · dsimp only
    intro j
    by_cases hjk : j ≤ (s.idx + 1).toNat
    · rw [htakelow j hjk]
      exact hinv.prefix_noClose j
    · rw [htakefull j (by omega), replayL_concat]
      exact noClose_equiv (Command.doL_equiv c hcur)
        (Command.doL_nodup hc hinv.nodup) (Command.doL_nodup hc (hinv.prefix_nodup _)) hnc

theorem replayL_take_succ_getD {cmds : List Command} {j : Nat} (h : j < cmds.length)
    (init : Lines) :
    replayL (cmds.take (j + 1)) init =
      Command.doL (cmds.getD j (Command.clearLines [])) (replayL (cmds.take j) init) := by
  rw [List.take_succ, getElem?_eq_getD (Command.clearLines []) _ _ h]
  simp only [Option.toList]
  exact List.foldl_concat _ _ _ _

theorem undo_preserves {init : Lines} {s : ControllerState} (hinv : CtrlInv init s) :
    CtrlInv init (Controller.undo s) := by
  rw [Controller.undo]
  by_cases hge : s.idx ≥ 0
  · rw [if_pos hge]
    have hlt : s.idx.toNat < s.stack.length := by
      have := hinv.idx_ub
      omega
    rw [getElem?_eq_getD (Command.clearLines []) _ _ hlt]
    dsimp only
    have hcin : s.stack.getD s.idx.toNat (Command.clearLines []) ∈ s.stack :=
      getD_mem _ _ _ hlt
    have hc : CmdInv s.nextId (s.stack.getD s.idx.toNat (Command.clearLines [])) :=
      hinv.cmds _ hcin
    refine ⟨?_, ?_, ?_, ?_, ?_, ?_, ?_, ?_, ?_, ?_⟩
    · dsimp only
      omega
    · dsimp only
      have := hinv.idx_ub
      omega
    · dsimp only
      rw [Command.undoC_lines]
      exact Command.undoL_nodup hc hinv.nodup
    · dsimp only
      rw [Command.undoC_lines]
      exact Command.undoL_below hc hinv.below
    · exact hinv.cmds
    · dsimp only
      rw [Command.undoC_lines]
      have h1 := Command.undoL_equiv (s.stack.getD s.idx.toNat (Command.clearLines []))
        hinv.lines_eq
      have h2 := hinv.inverse s.idx.toNat hlt
      have h3 : s.idx.toNat + 1 = (s.idx + 1).toNat := by omega
      rw [h3] at h2
      have h4 : (s.idx - 1 + 1).toNat = s.idx.toNat := by omega
      rw [h4]
      exact LinesEquiv.trans h1 h2
    · exact hinv.inverse
    · exact hinv.prefix_below
    · exact hinv.prefix_nodup
    · exact hinv.prefix_noClose
  · rw [if_neg hge]
    exact hinv

theorem redo_preserves {init : Lines} {s : ControllerState} (hinv : CtrlInv init s) :
    CtrlInv init (Controller.redo s) := by
  rw [Controller.redo]
  by_cases hlt : s.idx + 1 < (s.stack.length : ℤ)
  · rw [if_pos hlt]
    have hlt2 : (s.idx + 1).toNat < s.stack.length := by
      have := hinv.idx_lb
      omega
    rw [getElem?_eq_getD (Command.clearLines []) _ _ hlt2]
    dsimp only
    have hc : CmdInv s.nextId (s.stack.getD (s.idx + 1).toNat (Command.clearLines [])) :=
      hinv.cmds _ (getD_mem _ _ _ hlt2)
    refine ⟨?_, ?_, ?_, ?_, ?_, ?_, ?_, ?_, ?_, ?_⟩
    · dsimp only
      have := hinv.idx_lb
      omega
    · dsimp only
      omega
    · dsimp only
      rw [Command.doC_lines]
      exact Command.doL_nodup hc hinv.nodup
    · dsimp only
      rw [Command.doC_lines]
      exact Command.doL_below hc hinv.below
    · exact hinv.cmds
    · dsimp only
      rw [Command.doC_lines]
      have h3 : (s.idx + 1 + 1).toNat = (s.idx + 1).toNat + 1 := by
        have := hinv.idx_lb
        omega
      rw [h3, replayL_take_succ_getD hlt2]
      exact Command.doL_equiv _ hinv.lines_eq
    · exact hinv.inverse
    · exact hinv.prefix_below
    · exact hinv.prefix_nodup
    · exact hinv.prefix_noClose
  · rw [if_neg hlt]
    exact hinv

theorem select_line_preserves {init : Lines} {s : ControllerState} (hinv : CtrlInv init s)
    (lineId : Option Nat) : CtrlInv init (Controller.select_line lineId s) := by
  simp only [Controller.select_line]
  cases lineId with
  | none => exact hinv.with_selected _
  | some i =>
    dsimp only
    by_cases hf : (linesFind i s.core.lines).isSome = true
    · rw [if_pos hf]
      exact hinv.with_selected _
    · rw [if_neg hf]
      exact hinv

theorem add_line_preserves {init : Lines} {s : ControllerState} (hinv : CtrlInv init s)
    (y : ℚ) : CtrlInv init (Controller.add_line y s) := by
  cases himg : s.image with
  | none =>
    simp only [Controller.add_line, himg]
    exact hinv.with_status _
  | some h =>
    simp only [Controller.add_line, himg]
    by_cases hdup : Controller.is_duplicate_y s (Controller.normalize_y s y) none = true
    · rw [if_pos hdup]
      exact hinv.with_status _
    · have hfalse : Controller.is_duplicate_y s (Controller.normalize_y s y) none
          = false := by
        simpa using hdup
      rw [if_neg hdup]
      have hpush : CtrlInv init (Controller.push_and_execute
          (Command.addLine { id := s.nextId, y := Controller.normalize_y s y })
          { s with nextId := s.nextId + 1 }) := by
        apply push_preserves (hinv.mono_nextId (Nat.le_succ _))
        · exact Nat.lt_succ_self s.nextId
        · exact upsert_remove_cancel
            (linesFind_eq_none fun l hl => Nat.ne_of_lt (hinv.below l hl))
        · apply noClose_upsert_replace hinv.nodup hinv.current_noClose
          intro a ha hane
          exact is_duplicate_y_none_false hfalse a ha
      rw [himg] at hpush
      exact select_line_preserves hpush _

theorem delete_line_preserves {init : Lines} {s : ControllerState} (hinv : CtrlInv init s)
    (lineId : Option Nat) : CtrlInv init (Controller.delete_line lineId s) := by
  simp only [Controller.delete_line]
  cases htgt : (match lineId with
                | some i => some i
                | none => s.core.selected) with
  | none => exact hinv
  | some target =>
    dsimp only
    cases hfind : linesFind target s.core.lines with
    | none => exact hinv
    | some line =>
      dsimp only
      have hid : line.id = target := linesFind_some_id hfind
      have hpush : CtrlInv init
          (Controller.push_and_execute (Command.deleteLine line) s) := by
        apply push_preserves hinv
        · exact hinv.below line (linesFind_some_mem hfind)
        · exact remove_upsert_cancel (by rw [hid]; exact hfind)
        · exact noClose_remove hinv.current_noClose line.id
      by_cases hsel : (Controller.push_and_execute (Command.deleteLine line) s).core.selected
          = some target
      · rw [if_pos hsel]
        exact hpush.with_selected _
      · rw [if_neg hsel]
        exact hpush

theorem clear_lines_preserves {init : Lines} {s : ControllerState} (hinv : CtrlInv init s) :
    CtrlInv init (Controller.clear_lines s) := by
  rw [Controller.clear_lines]
  by_cases hempty : s.core.lines = []
  · rw [if_pos hempty]
    exact hinv
  · rw [if_neg hempty]
    have hperm := sortedByY_perm s.core.lines
    have hnodup2 : idsNodup (sortedByY s.core.lines) := by
      have hn := hinv.nodup
      simp only [idsNodup] at hn ⊢
      exact ((hperm.map (fun l => l.id)).nodup_iff).mpr hn
    have hpush : CtrlInv init (Controller.push_and_execute
        (Command.clearLines (sortedByY s.core.lines)) s) := by
      apply push_preserves hinv
      · refine ⟨?_, hnodup2, ?_⟩
        · intro l hl
          exact hinv.below l (hperm.mem_iff.mp hl)
        · intro a ha b hb hne
          exact hinv.current_noClose a (hperm.mem_iff.mp ha) b (hperm.mem_iff.mp hb) hne
      · exact perm_linesEquiv hperm hinv.nodup
      · intro a ha
        cases ha
    exact hpush.with_selected _

theorem move_line_preserves {init : Lines} {s : ControllerState} (hinv : CtrlInv init s)
    (lineId : Nat) (newY : ℚ) : CtrlInv init (Controller.move_line lineId newY s) := by
  rw [Controller.move_line]
  cases hfind : linesFind lineId s.core.lines with
  | none =>
    cases s.image <;> exact hinv
  | some line =>
    cases himg : s.image with
    | none => exact hinv
    | some h =>
      dsimp only
      by_cases hnear : |Controller.normalize_y s newY - line.y| < 1/10
      · rw [if_pos hnear]
        exact hinv
      · rw [if_neg hnear]
        by_cases hdup : Controller.is_duplicate_y s (Controller.normalize_y s newY)
            (some lineId) = true
        · rw [if_pos hdup]
          exact hinv.with_status _
        · have hfalse : Controller.is_duplicate_y s (Controller.normalize_y s newY)
              (some lineId) = false := by
            simpa using hdup
          rw [if_neg hdup]
          apply push_preserves hinv
          · exact trivial
          · exact moveY_cancel _ hfind
          · apply noClose_moveY hinv.nodup hinv.current_noClose
            intro a ha hane
            exact is_duplicate_y_some_false hfalse a ha hane
      
theorem set_locked_preserves {init : Lines} {s : ControllerState} (hinv : CtrlInv init s)
    (lineId : Nat) (locked : Bool) : CtrlInv init (Controller.set_locked lineId locked s) := by
  rw [Controller.set_locked]
  cases hfind : linesFind lineId s.core.lines with
  | none => exact hinv
  | some line =>
    dsimp only
    by_cases heq : line.locked = locked
    · rw [if_pos heq]
      exact hinv
    · rw [if_neg heq]
      apply push_preserves hinv
      · exact trivial
      · apply setLocked_cancel hfind
        cases hlk : line.locked <;> cases hl2 : locked <;> simp_all
      · exact noClose_setLocked hinv.nodup hinv.current_noClose

theorem applyOp_preserves {init : Lines} {s : ControllerState} (hinv : CtrlInv init s) :
    ∀ op : Op, CtrlInv init (applyOp op s) := by
  intro op
  cases op with
  | addLine y => exact add_line_preserves hinv y
  | deleteLine lineId => exact delete_line_preserves hinv lineId
  | moveLine lineId newY => exact move_line_preserves hinv lineId newY
  | setLocked lineId locked => exact set_locked_preserves hinv lineId locked
  | clearLines => exact clear_lines_preserves hinv
  | selectLine lineId => exact select_line_preserves hinv lineId
  | setSnapMode mode => exact (hinv.with_snap mode).with_status _
  | setGridSize size => exact hinv.with_grid _
  | undo => exact undo_preserves hinv
  | redo => exact redo_preserves hinv

theorem applyOps_preserves {init : Lines} : ∀ (ops : List Op) (s : ControllerState),
    CtrlInv init s → CtrlInv init (applyOps ops s) := by
  intro ops
  induction ops with
  | nil => intro s hinv; exact hinv
  | cons op rest ih =>
    intro s hinv
    exact ih _ (applyOp_preserves hinv op)

theorem unwind_restores {init : Lines} : ∀ (n : Nat) (s : ControllerState),
    CtrlInv init s → (s.idx + 1).toNat = n →
    Controller.can_undo (undoN n s) = false ∧
      LinesEquiv (undoN n s).core.lines init := by
  intro n
  induction n with
  | zero =>
    intro s hinv hn
    have hidx : s.idx = -1 := by
      have := hinv.idx_lb
      omega
    constructor
    · simp [undoN, Controller.can_undo, hidx]
    · have hle := hinv.lines_eq
      rw [hn] at hle
      simpa [undoN, replayL] using hle
  | succ n ih =>
    intro s hinv hn
    have hge : s.idx ≥ 0 := by omega
    have hlt : s.idx.toNat < s.stack.length := by
      have := hinv.idx_ub
      omega
    have hstep : Controller.undo s =
        { s with
          core := Command.undoC (s.stack.getD s.idx.toNat (Command.clearLines [])) s.core,
          idx := s.idx - 1 } := by
      rw [Controller.undo, if_pos hge, getElem?_eq_getD (Command.clearLines []) _ _ hlt]
    have hidx2 : ((Controller.undo s).idx + 1).toNat = n := by
      rw [hstep]
      dsimp only
      omega
    have : undoN (n + 1) s = undoN n (Controller.undo s) := rfl
    rw [this]
    exact ih (Controller.undo s) (undo_preserves hinv) hidx2

/-- C2: starting from any well-formed controller state with a fresh (empty)
command history, after an arbitrary sequence of public calls — addLine,
deleteLine, moveLine, setLocked, clearLines, selectLine, snap configuration,
undo and redo in any interleaving — calling undo until canUndo is false
restores the id-to-GuideLine mapping (each line's y and locked flag included)
to exactly its state before the sequence began. -/
theorem fresh_inv (s0 : ControllerState) (hstack : s0.stack = []) (hidx : s0.idx = -1)
    (hnodup : idsNodup s0.core.lines) (hbelow : idsBelow s0.nextId s0.core.lines)
    (hnc : noClose s0.core.lines) : CtrlInv s0.core.lines s0 := by
  refine ⟨?_, ?_, hnodup, hbelow, ?_, ?_, ?_, ?_, ?_, ?_⟩
  · rw [hidx]
  · rw [hidx, hstack]
    simp
  · intro c hc
    rw [hstack] at hc
    cases hc
  · rw [hstack]
    simp only [List.take_nil]
    exact LinesEquiv.refl _
  · intro j hj
    rw [hstack] at hj
    cases hj
  · intro j
    rw [hstack]
    simp only [List.take_nil]
    exact hbelow
  · intro j
    rw [hstack]
    simp only [List.take_nil]
    exact hnodup
  · intro j
    rw [hstack]
    simp only [List.take_nil]
    exact hnc

theorem C2_undo_is_true_inverse (s0 : ControllerState) (ops : List Op)
    (hstack : s0.stack = []) (hidx : s0.idx = -1)
    (hnodup : idsNodup s0.core.lines) (hbelow : idsBelow s0.nextId s0.core.lines)
    (hnc : noClose s0.core.lines) :
    Controller.can_undo (unwindAll (applyOps ops s0)) = false ∧
      LinesEquiv (unwindAll (applyOps ops s0)).core.lines s0.core.lines :=
  unwind_restores _ _
    (applyOps_preserves ops s0 (fresh_inv s0 hstack hidx hnodup hbelow hnc)) rfl

/-- A concrete fresh controller state (image of height 100 loaded, no lines). -/
def sampleState : ControllerState :=
  { core := { lines := [], selected := none }, image := some 100,
    snap_mode := SnapMode.PIXEL, grid_size := 10, stack := [], idx := -1,
    nextId := 0, status := [] }

/-- A concrete call sequence mixing mutators with undo/redo. -/
def sampleOps : List Op :=
  [Op.addLine 5, Op.addLine 9, Op.undo, Op.redo, Op.moveLine 0 20,
    Op.setLocked 1 true, Op.clearLines, Op.undo, Op.redo]

/-- Witness for C2 at the concrete state and call sequence. -/
theorem C2_witness :
    Controller.can_undo (unwindAll (applyOps sampleOps sampleState)) = false ∧
      LinesEquiv (unwindAll (applyOps sampleOps sampleState)).core.lines
        sampleState.core.lines :=
  C2_undo_is_true_inverse sampleState sampleOps rfl rfl (by simp [idsNodup, sampleState])
    (fun l hl => absurd hl (List.not_mem_nil l))
    (fun a ha => absurd ha (List.not_mem_nil a))

/-- C3 (amended): after any public call sequence from a fresh history the
guide set never holds two lines with distinct ids within 0.1 px of each
other; addLine rejects — with a status message and no other state change —
any normalized y within 0.1 px of an existing line; moveLine rejects with a
status message when the normalized y is at least 0.1 px away from the line's
own current y and within 0.1 px of another line; when the normalized y is
within 0.1 px of the line's own current y, moveLine is a silent no-op (no
status message is emitted — this is the only amendment to the claim). -/
theorem C3_duplicate_invariant :
    (∀ (s0 : ControllerState) (ops : List Op), s0.stack = [] → s0.idx = -1 →
        idsNodup s0.core.lines → idsBelow s0.nextId s0.core.lines →
        noClose s0.core.lines → noClose (applyOps ops s0).core.lines) ∧
    (∀ (s : ControllerState) (y : ℚ) (h : Nat), s.image = some h →
        Controller.is_duplicate_y s (Controller.normalize_y s y) none = true →
        Controller.add_line y s = Controller.emitStatus "status.line_exists" s) ∧
    (∀ (s : ControllerState) (lineId : Nat) (newY : ℚ) (line : GuideLine) (h : Nat),
        linesFind lineId s.core.lines = some line → s.image = some h →
        ¬(|Controller.normalize_y s newY - line.y| < 1/10) →
        Controller.is_duplicate_y s (Controller.normalize_y s newY) (some lineId) = true →
        Controller.move_line lineId newY s =
          Controller.emitStatus "status.line_exists_other" s) ∧
    (∀ (s : ControllerState) (lineId : Nat) (newY : ℚ) (line : GuideLine) (h : Nat),
        linesFind lineId s.core.lines = some line → s.image = some h →
        |Controller.normalize_y s newY - line.y| < 1/10 →
        Controller.move_line lineId newY s = s) := by
  refine ⟨?_, ?_, ?_, ?_⟩
  · intro s0 ops hstack hidx hnodup hbelow hnc
    exact (applyOps_preserves ops s0
      (fresh_inv s0 hstack hidx hnodup hbelow hnc)).current_noClose
  · intro s y h himg hdup
    simp only [Controller.add_line, himg, hdup, if_true]
  · intro s lineId newY line h hfind himg hfar hdup
    simp only [Controller.move_line, hfind, himg]
    rw [if_neg hfar, if_pos hdup]
  · intro s lineId newY line h hfind himg hnear
    simp only [Controller.move_line, hfind, himg]
    rw [if_pos hnear]

/-- A state with unlocked lines at y = 0 and y = 0.15 and snapping off. -/
def c3State : ControllerState :=
  { core := { lines := [{ id := 0, y := 0 }, { id := 1, y := 3/20 }], selected := none },
    image := some 100, snap_mode := SnapMode.OFF, grid_size := 10, stack := [], idx := -1,
    nextId := 2, status := [] }

/-- C3 (counterexample): in `c3State`, moving line 0 to y = 0.08 targets a
normalized y within 0.1 px of the OTHER line (at 0.15), yet the call is a
silent no-op — no status message, no rejection — because the < 0.1 px
self-delta check returns first. The claim as stated requires a status
message here. -/
theorem C3_counterexample :
    |Controller.normalize_y c3State (2/25) - (3/20 : ℚ)| < 1/10 ∧
      Controller.move_line 0 (2/25) c3State = c3State := by
  have habs1 : |(2:ℚ)/25 - 3/20| < 1/10 := by
    have h1 : (2:ℚ)/25 - 3/20 = -(7/100) := by norm_num
    rw [h1, abs_neg, abs_of_nonneg (by norm_num)]
    norm_num
  have habs2 : |(2:ℚ)/25 - 0| < 1/10 := by
    rw [sub_zero, abs_of_nonneg (by norm_num)]
    norm_num
  have hnorm : Controller.normalize_y c3State (2/25) = 2/25 := by
    norm_num [Controller.normalize_y, c3State, apply_snap, clamp]
  have hfind : linesFind 0 c3State.core.lines =
      some { id := 0, y := 0, locked := false, kind := "horizontal" } := by
    simp [c3State, linesFind, List.find?]
  constructor
  · rw [hnorm]
    exact habs1
  · simp only [Controller.move_line, hfind, show c3State.image = some 100 from rfl]
    rw [hnorm]
    rw [if_pos habs2]

/-- Witness for C3 (amended): the invariant after the sample call sequence,
and a concrete rejected duplicate addLine. -/
theorem C3_witness :
    noClose (applyOps sampleOps sampleState).core.lines ∧
      Controller.add_line 0 c3State = Controller.emitStatus "status.line_exists" c3State := by
  constructor
  · exact C3_duplicate_invariant.1 sampleState sampleOps rfl rfl
      (by simp [idsNodup, sampleState]) (fun l hl => absurd hl (List.not_mem_nil l))
      (fun a ha => absurd ha (List.not_mem_nil a))
  · refine C3_duplicate_invariant.2.1 c3State 0 100 rfl ?_
    norm_num [Controller.is_duplicate_y, Controller.normalize_y, c3State, apply_snap,
      clamp, List.any_cons, List.any_nil]

/-- C4: linear-undo semantics of the command stack: pushAndExecute truncates
everything after the cursor, appends the new command, advances the cursor
and runs do() — leaving canRedo false, so the previously redoable tail is
discarded for good; undo is a no-op when the cursor is below 0 and otherwise
runs undo() of the command at the cursor and decrements; redo is a no-op
when cursor + 1 ≥ length and otherwise increments and runs do(). -/
theorem C4_linear_undo_semantics (s : ControllerState) (c : Command)
    (hlb : -1 ≤ s.idx) (hub : s.idx < (s.stack.length : ℤ)) :
    ((Controller.push_and_execute c s).stack
        = s.stack.take (s.idx + 1).toNat ++ [c] ∧
      (Controller.push_and_execute c s).idx = s.idx + 1 ∧
      (Controller.push_and_execute c s).core = Command.doC c s.core ∧
      Controller.can_redo (Controller.push_and_execute c s) = false) ∧
    (Controller.can_undo s = false → Controller.undo s = s) ∧
    (Controller.can_undo s = true →
      Controller.undo s = { s with
        core := Command.undoC (s.stack.getD s.idx.toNat (Command.clearLines [])) s.core,
        idx := s.idx - 1 }) ∧
    (Controller.can_redo s = false → Controller.redo s = s) ∧
    (Controller.can_redo s = true →
      Controller.redo s = { s with
        core := Command.doC (s.stack.getD (s.idx + 1).toNat (Command.clearLines [])) s.core,
        idx := s.idx + 1 }) := by
  have hpush := push_and_execute_eq c s hlb
  refine ⟨⟨by rw [hpush], by rw [hpush], by rw [hpush], ?_⟩, ?_, ?_, ?_, ?_⟩
  · rw [hpush]
    simp only [Controller.can_redo, decide_eq_false_iff_not, not_lt]
    rw [List.length_append, List.length_take, List.length_singleton]
    push_cast
    omega
  · intro hcu
    simp only [Controller.can_undo, decide_eq_false_iff_not, not_le] at hcu
    rw [Controller.undo, if_neg (by omega)]
  · intro hcu
    simp only [Controller.can_undo, decide_eq_true_eq] at hcu
    have hlt : s.idx.toNat < s.stack.length := by omega
    rw [Controller.undo, if_pos hcu, getElem?_eq_getD (Command.clearLines []) _ _ hlt]
  · intro hcr
    simp only [Controller.can_redo, decide_eq_false_iff_not, not_lt] at hcr
    rw [Controller.redo, if_neg (by omega)]
  · intro hcr
    simp only [Controller.can_redo, decide_eq_true_eq] at hcr
    have hlt : (s.idx + 1).toNat < s.stack.length := by omega
    rw [Controller.redo, if_pos hcr, getElem?_eq_getD (Command.clearLines []) _ _ hlt]

/-- A one-command stack state used by the C4 witness. -/
def c4State : ControllerState :=
  { core := { lines := [{ id := 0, y := 5 }], selected := none }, image := some 100,
    snap_mode := SnapMode.PIXEL, grid_size := 10,
    stack := [Command.addLine { id := 0, y := 5 }], idx := 0, nextId := 1, status := [] }

/-- Witness for C4 at `c4State` and a fresh delete command. -/
theorem C4_witness :
    ((Controller.push_and_execute (Command.deleteLine { id := 0, y := 5 }) c4State).stack
        = c4State.stack.take (c4State.idx + 1).toNat
            ++ [Command.deleteLine { id := 0, y := 5 }] ∧
      (Controller.push_and_execute (Command.deleteLine { id := 0, y := 5 }) c4State).idx
        = c4State.idx + 1 ∧
      (Controller.push_and_execute (Command.deleteLine { id := 0, y := 5 }) c4State).core
        = Command.doC (Command.deleteLine { id := 0, y := 5 }) c4State.core ∧
      Controller.can_redo (Controller.push_and_execute
        (Command.deleteLine { id := 0, y := 5 }) c4State) = false) ∧
    (Controller.can_undo c4State = false → Controller.undo c4State = c4State) ∧
    (Controller.can_undo c4State = true →
      Controller.undo c4State = { c4State with
        core := Command.undoC (c4State.stack.getD c4State.idx.toNat
          (Command.clearLines [])) c4State.core,
        idx := c4State.idx - 1 }) ∧
    (Controller.can_redo c4State = false → Controller.redo c4State = c4State) ∧
    (Controller.can_redo c4State = true →
      Controller.redo c4State = { c4State with
        core := Command.doC (c4State.stack.getD (c4State.idx + 1).toNat
          (Command.clearLines [])) c4State.core,
        idx := c4State.idx + 1 }) :=
  C4_linear_undo_semantics c4State (Command.deleteLine { id := 0, y := 5 })
    (by decide) (by decide)

/-- C9: the locked flag restricts only interactive gestures — the
programmatic controller commands still apply to a locked line: moveLine with
a valid, non-duplicate normalized target changes its y, and deleteLine
removes it. -/
theorem C9_locked_lines_still_mutable (s : ControllerState) (lineId : Nat)
    (line : GuideLine) (newY : ℚ) (h : Nat)
    (himg : s.image = some h)
    (hfind : linesFind lineId s.core.lines = some line)
    (hlocked : line.locked = true)
    (hdelta : ¬(|Controller.normalize_y s newY - line.y| < 1/10))
    (hdup : Controller.is_duplicate_y s (Controller.normalize_y s newY) (some lineId)
      = false) :
    linesFind lineId (Controller.move_line lineId newY s).core.lines =
      some { line with y := Controller.normalize_y s newY } ∧
    linesFind lineId (Controller.delete_line (some lineId) s).core.lines = none := by
  have hid : line.id = lineId := linesFind_some_id hfind
  constructor
  · simp only [Controller.move_line, hfind, himg]
    rw [if_neg hdelta, if_neg (by rw [hdup]; simp)]
    have hproj : (Controller.push_and_execute
        (Command.moveLine lineId line.y (Controller.normalize_y s newY)) s).core.lines
        = linesMoveY lineId (Controller.normalize_y s newY) s.core.lines := by
      rw [show (Controller.push_and_execute
        (Command.moveLine lineId line.y (Controller.normalize_y s newY)) s).core
        = Command.doC (Command.moveLine lineId line.y (Controller.normalize_y s newY))
            s.core from rfl, Command.doC_lines]
      rfl
    rw [hproj, linesFind_moveY, hfind]
    dsimp only
    rw [if_pos rfl]
  · simp only [Controller.delete_line, hfind]
    have hproj : ∀ s2 : ControllerState,
        s2 = Controller.push_and_execute (Command.deleteLine line) s →
        s2.core.lines = linesRemove line.id s.core.lines := by
      intro s2 hs2
      rw [hs2, show (Controller.push_and_execute (Command.deleteLine line) s).core
        = Command.doC (Command.deleteLine line) s.core from rfl, Command.doC_lines]
      rfl
    by_cases hsel : (Controller.push_and_execute (Command.deleteLine line) s).core.selected
        = some lineId
    · rw [if_pos hsel]
      dsimp only
      rw [hproj _ rfl, linesFind_remove, if_pos hid.symm]
    · rw [if_neg hsel]
      rw [hproj _ rfl, linesFind_remove, if_pos hid.symm]

/-- A state with one locked line, for the C9 witness. -/
def c9State : ControllerState :=
  { core := { lines := [{ id := 0, y := 5, locked := true, kind := "horizontal" }],
              selected := none },
    image := some 100, snap_mode := SnapMode.PIXEL, grid_size := 10, stack := [],
    idx := -1, nextId := 1, status := [] }

/-- Witness for C9: the locked line at y = 5 is moved to 20 and deleted. -/
theorem C9_witness :
    linesFind 0 (Controller.move_line 0 20 c9State).core.lines =
      some { id := 0, y := Controller.normalize_y c9State 20, locked := true,
             kind := "horizontal" } ∧
    linesFind 0 (Controller.delete_line (some 0) c9State).core.lines = none := by
  have hfind : linesFind 0 c9State.core.lines =
      some { id := 0, y := 5, locked := true, kind := "horizontal" } := by
    simp [c9State, linesFind, List.find?]
  have hnorm : Controller.normalize_y c9State 20 = 20 := by
    norm_num [Controller.normalize_y, c9State, apply_snap, clamp, pyRound]
  refine C9_locked_lines_still_mutable c9State 0
    { id := 0, y := 5, locked := true, kind := "horizontal" } 20 100 rfl hfind rfl ?_ ?_
  · rw [hnorm]
    dsimp only
    intro habs
    rw [show (20:ℚ) - 5 = 15 from by norm_num] at habs
    rw [abs_of_nonneg (by norm_num)] at habs
    norm_num at habs
  · rw [hnorm]
    simp [Controller.is_duplicate_y, c9State]

/-- The selection invariant: a selected id refers to an existing line. -/
def SelValid (s : ControllerState) : Prop :=
  ∀ i : Nat, s.core.selected = some i → (linesFind i s.core.lines).isSome = true

theorem linesFind_isSome_upsert (l : GuideLine) (ls : Lines) (i : Nat)
    (h : (linesFind i ls).isSome = true) :
    (linesFind i (linesUpsert l ls)).isSome = true := by
  rw [linesFind_upsert]
  by_cases hq : i = l.id
  · rw [if_pos hq]
    rfl
  · rw [if_neg hq]
    exact h

theorem linesFind_isSome_moveY (lineId : Nat) (newY : ℚ) (ls : Lines) (i : Nat)
    (h : (linesFind i ls).isSome = true) :
    (linesFind i (linesMoveY lineId newY ls)).isSome = true := by
  rw [linesFind_moveY]
  cases linesFind lineId ls with
  | none => exact h
  | some l =>
    dsimp only
    by_cases hq : i = lineId
    · rw [if_pos hq]
      rfl
    · rw [if_neg hq]
      exact h

theorem linesFind_isSome_setLocked (lineId : Nat) (locked : Bool) (ls : Lines) (i : Nat)
    (h : (linesFind i ls).isSome = true) :
    (linesFind i (linesSetLocked lineId locked ls)).isSome = true := by
  rw [linesFind_setLocked]
  cases linesFind lineId ls with
  | none => exact h
  | some l =>
    dsimp only
    by_cases hq : i = lineId
    · rw [if_pos hq]
      rfl
    · rw [if_neg hq]
      exact h

theorem coreRemoveLine_selection (lineId : Nat) (cs : CoreState)
    (hv : ∀ i : Nat, cs.selected = some i → (linesFind i cs.lines).isSome = true) :
    (coreRemoveLine lineId cs).selected = none ∨
      ((coreRemoveLine lineId cs).selected = cs.selected ∧
        ∀ i : Nat, (coreRemoveLine lineId cs).selected = some i →
          (linesFind i (coreRemoveLine lineId cs).lines).isSome = true) := by
  by_cases h : cs.selected = some lineId
  · left
    simp [coreRemoveLine, h]
  · right
    refine ⟨by simp [coreRemoveLine, h], ?_⟩
    intro i hi
    simp only [coreRemoveLine, if_neg h] at hi
    have hine : i ≠ lineId := by
      intro hh
      subst hh
      exact h hi
    show (linesFind i (linesRemove lineId cs.lines)).isSome = true
    rw [linesFind_remove, if_neg hine]
    exact hv i hi

theorem undoC_selection (c : Command) (cs : CoreState)
    (hv : ∀ i : Nat, cs.selected = some i → (linesFind i cs.lines).isSome = true) :
    (Command.undoC c cs).selected = none ∨
      ((Command.undoC c cs).selected = cs.selected ∧
        ∀ i : Nat, (Command.undoC c cs).selected = some i →
          (linesFind i (Command.undoC c cs).lines).isSome = true) := by
  cases c with
  | addLine line => exact coreRemoveLine_selection line.id cs hv
  | deleteLine line =>
    right
    refine ⟨rfl, ?_⟩
    intro i hi
    exact linesFind_isSome_upsert line cs.lines i (hv i hi)
  | moveLine lineId oldY newY =>
    right
    refine ⟨rfl, ?_⟩
    intro i hi
    exact linesFind_isSome_moveY lineId oldY cs.lines i (hv i hi)
  | lockLine lineId locked =>
    right
    refine ⟨rfl, ?_⟩
    intro i hi
    exact linesFind_isSome_setLocked lineId (!locked) cs.lines i (hv i hi)
  | clearLines previous =>
    left
    rfl

theorem doC_selection (c : Command) (cs : CoreState)
    (hv : ∀ i : Nat, cs.selected = some i → (linesFind i cs.lines).isSome = true) :
    (Command.doC c cs).selected = none ∨
      ((Command.doC c cs).selected = cs.selected ∧
        ∀ i : Nat, (Command.doC c cs).selected = some i →
          (linesFind i (Command.doC c cs).lines).isSome = true) := by
  cases c with
  | addLine line =>
    right
    refine ⟨rfl, ?_⟩
    intro i hi
    exact linesFind_isSome_upsert line cs.lines i (hv i hi)
  | deleteLine line => exact coreRemoveLine_selection line.id cs hv
  | moveLine lineId oldY newY =>
    right
    refine ⟨rfl, ?_⟩
    intro i hi
    exact linesFind_isSome_moveY lineId newY cs.lines i (hv i hi)
  | lockLine lineId locked =>
    right
    refine ⟨rfl, ?_⟩
    intro i hi
    exact linesFind_isSome_setLocked lineId locked cs.lines i (hv i hi)
  | clearLines previous =>
    left
    rfl

/-- C10: undo and redo never establish a selection — after undo() or redo()
the selection is either null or unchanged and still referring to an existing
line (undoing DeleteLine re-inserts without selecting, undoing ClearAll
restores the lines while forcing the selection to none) — and of the public
mutators only addLine and selectLine can set the selection to a line id:
deleteLine, moveLine, setLocked and clearLines leave it unchanged or clear
it. -/
theorem C10_undo_redo_never_select (s : ControllerState) (hsel : SelValid s) :
    ((Controller.undo s).core.selected = none ∨
      ((Controller.undo s).core.selected = s.core.selected ∧
        SelValid (Controller.undo s))) ∧
    ((Controller.redo s).core.selected = none ∨
      ((Controller.redo s).core.selected = s.core.selected ∧
        SelValid (Controller.redo s))) ∧
    (∀ lineId, (Controller.delete_line lineId s).core.selected = s.core.selected ∨
      (Controller.delete_line lineId s).core.selected = none) ∧
    (∀ lineId newY, (Controller.move_line lineId newY s).core.selected
      = s.core.selected) ∧
    (∀ lineId locked, (Controller.set_locked lineId locked s).core.selected
      = s.core.selected) ∧
    ((Controller.clear_lines s).core.selected = s.core.selected ∨
      (Controller.clear_lines s).core.selected = none) := by
  refine ⟨?_, ?_, ?_, ?_, ?_, ?_⟩
  · rw [Controller.undo]
    by_cases hge : s.idx ≥ 0
    · rw [if_pos hge]
      cases hopt : s.stack[s.idx.toNat]? with
      | none => exact Or.inr ⟨rfl, hsel⟩
      | some c =>
        dsimp only
        rcases undoC_selection c s.core hsel with h | ⟨h1, h2⟩
        · exact Or.inl h
        · exact Or.inr ⟨h1, fun i hi => h2 i hi⟩
    · rw [if_neg hge]
      exact Or.inr ⟨rfl, hsel⟩
  · rw [Controller.redo]
    by_cases hlt : s.idx + 1 < (s.stack.length : ℤ)
    · rw [if_pos hlt]
      cases hopt : s.stack[(s.idx + 1).toNat]? with
      | none => exact Or.inr ⟨rfl, hsel⟩
      | some c =>
        dsimp only
        rcases doC_selection c s.core hsel with h | ⟨h1, h2⟩
        · exact Or.inl h
        · exact Or.inr ⟨h1, fun i hi => h2 i hi⟩
    · rw [if_neg hlt]
      exact Or.inr ⟨rfl, hsel⟩
  · intro lineId
    simp only [Controller.delete_line]
    cases (match lineId with
           | some i => some i
           | none => s.core.selected) with
    | none => exact Or.inl rfl
    | some target =>
      dsimp only
      cases linesFind target s.core.lines with
      | none => exact Or.inl rfl
      | some line =>
        dsimp only
        by_cases hs2 : (Controller.push_and_execute (Command.deleteLine line) s).core.selected
            = some target
        · rw [if_pos hs2]
          exact Or.inr rfl
        · rw [if_neg hs2]
          show (Command.doC (Command.deleteLine line) s.core).selected = s.core.selected ∨ _
          rcases coreRemoveLine_selection line.id s.core hsel with h | ⟨h1, _⟩
          · exact Or.inr h
          · exact Or.inl h1
  · intro lineId newY
    simp only [Controller.move_line]
    cases linesFind lineId s.core.lines with
    | none => cases s.image <;> rfl
    | some line =>
      cases s.image with
      | none => rfl
      | some h =>
        dsimp only
        by_cases hnear : |Controller.normalize_y s newY - line.y| < 1/10
        · rw [if_pos hnear]
        · rw [if_neg hnear]
          by_cases hdup : Controller.is_duplicate_y s (Controller.normalize_y s newY)
              (some lineId) = true
          · rw [if_pos hdup]
            rfl
          · rw [if_neg hdup]
            rfl
  · intro lineId locked
    simp only [Controller.set_locked]
    cases linesFind lineId s.core.lines with
    | none => rfl
    | some line =>
      dsimp only
      by_cases heq : line.locked = locked
      · rw [if_pos heq]
      · rw [if_neg heq]
        rfl
  · rw [Controller.clear_lines]
    by_cases hempty : s.core.lines = []
    · rw [if_pos hempty]
      exact Or.inl rfl
    · rw [if_neg hempty]
      exact Or.inr rfl

/-- Witness for C10 at the concrete one-command state. -/
theorem C10_witness :
    ((Controller.undo c4State).core.selected = none ∨
      ((Controller.undo c4State).core.selected = c4State.core.selected ∧
        SelValid (Controller.undo c4State))) ∧
    ((Controller.redo c4State).core.selected = none ∨
      ((Controller.redo c4State).core.selected = c4State.core.selected ∧
        SelValid (Controller.redo c4State))) :=
  ⟨(C10_undo_redo_never_select c4State (fun i hi => by cases hi)).1,
    (C10_undo_redo_never_select c4State (fun i hi => by cases hi)).2.1⟩
